import Mathlib

/-!
# Verification of the kokoto-httpd persistence model

A shallow embedding of `src/model/persist.js`: the document revision chain
(`addDocument` / `updateDocument` / `archiveDocument`), the reference-counted
tag ledger (`increaseOrAddTag` / `decreaseOrRemoveTag`) and the search
operations (`searchDocument*`).

The Sequelize store is modelled as an explicit state `DB` holding the rows of
the `Document` and `Tag` tables and of the `DocumentToTag` through table.
Fallible operations return `Except Err α × DB`; the `DB` component carries the
writes already issued inside the current transaction, so an error value is
paired with the dirty state and the transaction wrapper (`transact`) is the
place where a rollback discards it.  Machine integers of the store are modelled
as `Int` (`count`) and row identifiers as `Nat`.  `uuid()` freshness for
`historyId` and SQL autoincrement ids are modelled by counters in the state.
Row timestamps (`updatedAt`, maintained automatically by Sequelize on every
`create`/`update`) are modelled by a logical clock that increases at each
document write.
-/

deriving instance DecidableEq for Except

namespace Kokoto

/-- `notBlank(text)` from persist.js: `_.isString(text) && text.trim() !== ''`.
`none` models a value that is not a string (`undefined`, objects, ...);
a trimmed string is non-empty exactly when some character is not
whitespace. -/
def notBlank : Option String → Bool
  | some s => s.data.any (fun c => !c.isWhitespace)
  | none => false

/-- The setter shared by `title`, `content` and tag `color`:
`this.setDataValue(key, notBlank(value) ? value : '')`. -/
def setText (v : Option String) : String :=
  if notBlank v then v.getD "" else ""

/-- A hexadecimal digit, as matched by `[0-9a-fA-F]`. -/
def isHexDigit (c : Char) : Bool :=
  c.isDigit || ('a' ≤ c && c ≤ 'f') || ('A' ≤ c && c ≤ 'F')

/-- The tag `color` validator `is: /^#[0-9a-fA-F]{6}$/`. -/
def validColor (s : String) : Bool :=
  match s.data with
  | '#' :: rest => rest.length = 6 && rest.all isHexDigit
  | _ => false

/-- The error kinds raised by the persistence layer.  In the source every
failure is `new Error(message)` with a message from `static/messages.json`;
the constructors stand for the distinct messages used by the modelled
operations. -/
inductive Err
  /-- `messages.document_not_exist` -/
  | docNotFound
  /-- `messages.tag_not_exist` -/
  | tagNotFound
  /-- `messages.title_required` (notEmpty validator on `title`) -/
  | titleRequired
  /-- `messages.content_required` (notEmpty validator on `content`) -/
  | contentRequired
  /-- `messages.color_invalid` (`is` regex validator on `color`) -/
  | colorInvalid
  /-- a `UniqueConstraintError` from the store -/
  | conflict
  /-- `'Not implemented yet'` -/
  | notImplemented
deriving DecidableEq, Repr

/-- A row of the `Document` table. -/
structure Document where
  id : Nat
  historyId : Nat
  isArchived : Bool
  title : String
  content : String
  /-- written by `setAuthor` right after creation -/
  authorId : Nat
  /-- Sequelize timestamp, bumped on every write to the row -/
  updatedAt : Nat
deriving DecidableEq, Repr

/-- A row of the `Tag` table. -/
structure Tag where
  id : Nat
  title : String
  count : Int
  color : String
deriving DecidableEq, Repr

/-- The `{title, color}` object passed for one tag of a document. -/
structure TagInput where
  title : Option String
  color : Option String
deriving DecidableEq, Repr

/-- The `document` object passed to `addDocument` / `updateDocument`.
`historyId` is `none` when the caller does not supply one (the HTTP layer
never does), in which case the column default `uuid()` generates a fresh
identifier. -/
structure DocInput where
  historyId : Option Nat
  title : Option String
  content : Option String
  authorId : Nat
  tags : List TagInput
deriving DecidableEq, Repr

/-- The persistent store: rows of the three relevant tables plus the
freshness counters modelling autoincrement ids, `uuid()` and timestamps. -/
structure DB where
  documents : List Document
  tags : List Tag
  /-- rows `(documentId, tagId)` of the `DocumentToTag` through table -/
  docTags : List (Nat × Nat)
  nextDocId : Nat
  nextTagId : Nat
  /-- models freshness of `uuid()` values used for `historyId` -/
  nextHid : Nat
  /-- logical time used for `updatedAt` -/
  clock : Nat
deriving DecidableEq, Repr

/-- The empty store after `sync`. -/
def db0 : DB := ⟨[], [], [], 1, 1, 1, 1⟩

/-- The number of non-archived document rows among `docs` referencing a tag
through the given through-table rows. -/
def refCountAux (docs : List Document) (pairs : List (Nat × Nat)) (tagId : Nat) : Nat :=
  docs.countP (fun d => !d.isArchived && pairs.contains (d.id, tagId))

/-- The number of non-archived document rows referencing a tag through the
`DocumentToTag` table: the quantity the tag ledger's `count` is meant to
track. -/
def refCount (tagId : Nat) (db : DB) : Nat :=
  refCountAux db.documents db.docTags tagId

/-- `document.getTags()`: the tag rows joined through `DocumentToTag`
(an inner join, so only live `Tag` rows are returned). -/
def getTags (docId : Nat) (db : DB) : List Tag :=
  db.tags.filter (fun t => db.docTags.contains (docId, t.id))

/-- `increaseOrAddTag(tag, trx)`: look the tag up by title; if found,
`foundTag.update({count: count+1, color})` (the update validates the written
`color` field), else `Tag.create({title, color})` (validating `title` notEmpty
and `color`; `count` takes its default value 1). -/
def increaseOrAddTag (tag : TagInput) (db : DB) : Except Err Tag × DB :=
  let title := setText tag.title
  let color := setText tag.color
  match db.tags.find? (fun t => t.title = title) with
  | some foundTag =>
    if validColor color then
      let updated : Tag := { foundTag with count := foundTag.count + 1, color := color }
      (.ok updated, { db with tags := db.tags.map (fun t => if t.id = foundTag.id then updated else t) })
    else
      (.error .colorInvalid, db)
  | none =>
    if title = "" then
      (.error .titleRequired, db)
    else if validColor color then
      let created : Tag := { id := db.nextTagId, title := title, count := 1, color := color }
      (.ok created, { db with tags := db.tags ++ [created], nextTagId := db.nextTagId + 1 })
    else
      (.error .colorInvalid, db)

/-- `Promise.map(document.tags, increaseOrAddTag)` (serialized on the single
transaction connection): attach every tag of the input, collecting the
resulting `Tag` rows. -/
def attachTags : List TagInput → DB → Except Err (List Tag) × DB
  | [], db => (.ok [], db)
  | tag :: rest, db =>
    match increaseOrAddTag tag db with
    | (.error e, db') => (.error e, db')
    | (.ok t, db') =>
      match attachTags rest db' with
      | (.error e, db'') => (.error e, db'')
      | (.ok ts, db'') => (.ok (t :: ts), db'')

/-- `createdDocument.setTags(tags)`: replace the document's through rows with
one row per given tag.  Two rows with the same `(documentId, tagId)` primary
key violate the through table's composite key, surfacing a unique-constraint
error. -/
def setTags (docId : Nat) (tags : List Tag) (db : DB) : Except Err Unit × DB :=
  let ids := tags.map (·.id)
  if ids.Nodup then
    (.ok (), { db with docTags := db.docTags.filter (fun p => p.1 ≠ docId) ++ ids.map (fun i => (docId, i)) })
  else
    (.error .conflict, db)

/-- `addDocument(document, trx)`: `Document.create` with the sanitized fields
`historyId`/`title`/`content` (validating `title` and `content` notEmpty after
their setters; `isArchived` defaults to `false`, `historyId` defaults to a
fresh `uuid()`), then `setAuthor(document.authorId)` and the tag attachment
`Promise.map(document.tags, increaseOrAddTag)` followed by `setTags`. -/
def addDocument (doc : DocInput) (db : DB) : Except Err Document × DB :=
  let title := setText doc.title
  let content := setText doc.content
  if title = "" then
    (.error .titleRequired, db)
  else if content = "" then
    (.error .contentRequired, db)
  else
    let hid := doc.historyId.getD db.nextHid
    let created : Document :=
      { id := db.nextDocId, historyId := hid, isArchived := false,
        title := title, content := content, authorId := doc.authorId,
        updatedAt := db.clock }
    let db1 : DB :=
      { db with documents := db.documents ++ [created],
                nextDocId := db.nextDocId + 1,
                nextHid := if doc.historyId.isNone then db.nextHid + 1 else db.nextHid,
                clock := db.clock + 1 }
    match attachTags doc.tags db1 with
    | (.error e, db2) => (.error e, db2)
    | (.ok tagRows, db2) =>
      match setTags created.id tagRows db2 with
      | (.error e, db3) => (.error e, db3)
      | (.ok _, db3) => (.ok created, db3)

/-- `decreaseOrRemoveTag(id, trx)`: `findById`, failing `tag_not_exist` when
absent; destroy the row at `count === 1`, otherwise
`tag.update({count: count-1})`. -/
def decreaseOrRemoveTag (id : Nat) (db : DB) : Except Err Tag × DB :=
  match db.tags.find? (fun t => t.id = id) with
  | none => (.error .tagNotFound, db)
  | some tag =>
    if tag.count = 1 then
      (.ok tag, { db with tags := db.tags.filter (fun t => t.id ≠ id) })
    else
      let updated : Tag := { tag with count := tag.count - 1 }
      (.ok updated, { db with tags := db.tags.map (fun t => if t.id = id then updated else t) })

/-- `document.getTags().map(tag => decreaseOrRemoveTag(tag.id))`, serialized
on the transaction connection. -/
def decTags : List Nat → DB → Except Err Unit × DB
  | [], db => (.ok (), db)
  | id :: rest, db =>
    match decreaseOrRemoveTag id db with
    | (.error e, db') => (.error e, db')
    | (.ok _, db') => decTags rest db'

/-- `archiveDocumentInstance(document, trx)`:
`document.update({isArchived: true})` (which also refreshes the row's
`updatedAt` timestamp), then a `decreaseOrRemoveTag` for every tag of the
document, returning the document. -/
def archiveDocumentInstance (document : Document) (db : DB) : Except Err Document × DB :=
  let flip : Document → Document := fun d =>
    if d.id = document.id then { d with isArchived := true, updatedAt := db.clock } else d
  let db1 : DB := { db with documents := db.documents.map flip, clock := db.clock + 1 }
  match decTags ((getTags document.id db1).map (·.id)) db1 with
  | (.error e, db2) => (.error e, db2)
  | (.ok _, db2) => (.ok document, db2)

/-- `updateDocument(id, document, trx)`: find the non-archived revision with
this id, failing `document_not_exist` when absent; archive it; then
`document.historyId = foundDocument.historyId` and `addDocument(document)`. -/
def updateDocument (id : Nat) (doc : DocInput) (db : DB) : Except Err Document × DB :=
  match db.documents.find? (fun d => d.id = id && !d.isArchived) with
  | none => (.error .docNotFound, db)
  | some foundDocument =>
    match archiveDocumentInstance foundDocument db with
    | (.error e, db') => (.error e, db')
    | (.ok archived, db') =>
      addDocument { doc with historyId := some archived.historyId } db'

/-- `archiveDocument(id, trx)`: the same lookup as `updateDocument`, then
`archiveDocumentInstance` without a replacement revision. -/
def archiveDocument (id : Nat) (db : DB) : Except Err Document × DB :=
  match db.documents.find? (fun d => d.id = id && !d.isArchived) with
  | none => (.error .docNotFound, db)
  | some foundDocument => archiveDocumentInstance foundDocument db

/-- The ordering `ORDER BY updatedAt DESC` of the searches: `a` comes no
later than `b` when it was updated no earlier. -/
def newerFirst (a b : Document) : Prop := b.updatedAt ≤ a.updatedAt

instance : DecidableRel newerFirst := fun a b => Nat.decLe b.updatedAt a.updatedAt

instance : IsTotal Document newerFirst := ⟨fun a b => Nat.le_total b.updatedAt a.updatedAt⟩

instance : IsTrans Document newerFirst := ⟨fun _ _ _ h1 h2 => Nat.le_trans h2 h1⟩

/-- Sort newest-updated first. -/
def sortByUpdated (l : List Document) : List Document :=
  l.insertionSort newerFirst

/-- `searchDocumentByDate(__, pagination)`: all documents with
`id > pagination[0]`, newest-updated first, limited to `pagination[1]`;
the query argument is ignored and an empty page is not an error. -/
def searchDocumentByDate (pagination : Nat × Nat) (db : DB) : Except Err (List Document) :=
  .ok ((sortByUpdated (db.documents.filter (fun d => pagination.1 < d.id))).take pagination.2)

/-- `searchDocumentByHistoryId(historyId, pagination)`: the rows with this
`historyId` and `id > pagination[0]`, newest-updated first, limited to
`pagination[1]`; fails `document_not_exist` when the page is empty. -/
def searchDocumentByHistoryId (historyId : Nat) (pagination : Nat × Nat) (db : DB) :
    Except Err (List Document) :=
  let documents := (sortByUpdated (db.documents.filter
    (fun d => pagination.1 < d.id && d.historyId = historyId))).take pagination.2
  if documents.length = 0 then .error .docNotFound else .ok documents

/-- `searchDocumentByTagId(tagId, pagination)`: the rows with
`id > pagination[0]` joined (inner join) to the `Tag` row with this id,
newest-updated first, limited; fails `tag_not_exist` when the page is
empty. -/
def searchDocumentByTagId (tagId : Nat) (pagination : Nat × Nat) (db : DB) :
    Except Err (List Document) :=
  let documents := (sortByUpdated (db.documents.filter
    (fun d => pagination.1 < d.id && db.docTags.contains (d.id, tagId)
      && (db.tags.find? (fun t => t.id = tagId)).isSome))).take pagination.2
  if documents.length = 0 then .error .tagNotFound else .ok documents

/-- `searchDocumentByText`: `Promise.reject(new Error('Not implemented yet'))`. -/
def searchDocumentByText (_pagination : Nat × Nat) (_db : DB) : Except Err (List Document) :=
  .error .notImplemented

/-- `searchDocument(type, query, pagination)`: dispatch on the `type` string;
every unrecognized type falls through to the by-date search. -/
def searchDocument (type : String) (query : Nat) (pagination : Nat × Nat) (db : DB) :
    Except Err (List Document) :=
  match type with
  | "history" => searchDocumentByHistoryId query pagination db
  | "tag" => searchDocumentByTagId query pagination db
  | "text" => searchDocumentByText pagination db
  | _ => searchDocumentByDate pagination db

/-- Modelled from the spec: the transaction wrapper is in repository code not
present under `src/` (the callback-style model layer that calls
`client.transaction` around each persistence operation); per the spec, "All
steps execute in one transaction; any failure rolls back the entire creation".
A failed operation commits nothing: the dirty state is discarded and the
store reverts to the state at the start of the transaction. -/
def transact {α : Type} (m : DB → Except Err α × DB) (db : DB) : Except Err α × DB :=
  match m db with
  | (.ok a, db') => (.ok a, db')
  | (.error e, _) => (.error e, db)

/-- The public create operation issued by `POST /document`: `addDocument` run
inside its transaction (see `transact`); the handler supplies no `historyId`,
so the column default generates a fresh one. -/
def createDocument (doc : DocInput) (db : DB) : Except Err Document × DB :=
  transact (addDocument { doc with historyId := none }) db

/-- The write operations of the revision chain, as issued by the HTTP layer:
`POST /document` (create, never supplying a `historyId`, so the column default
generates a fresh one), `PUT /document/:id` (update) and `DELETE /document/:id`
(archive). -/
inductive Op
  | create (doc : DocInput)
  | update (id : Nat) (doc : DocInput)
  | archive (id : Nat)

/-- Run one operation inside its transaction, keeping the committed state. -/
def applyOp (op : Op) (db : DB) : DB :=
  match op with
  | .create doc => (transact (addDocument { doc with historyId := none }) db).2
  | .update id doc => (transact (updateDocument id doc) db).2
  | .archive id => (transact (archiveDocument id) db).2

/-- Run a sequence of operations from a state. -/
def applyOps (ops : List Op) (db : DB) : DB :=
  ops.foldl (fun db op => applyOp op db) db

/-- The states reachable from the empty store by create/update/archive
(the revision operations, without the administrative tag overrides). -/
def Reach (db : DB) : Prop :=
  ∃ ops : List Op, db = applyOps ops db0

/-- The single-head invariant: for every `historyId` at most one non-archived
revision. -/
def SingleHead (db : DB) : Prop :=
  ∀ d1 ∈ db.documents, ∀ d2 ∈ db.documents,
    d1.isArchived = false → d2.isArchived = false → d1.historyId = d2.historyId → d1 = d2

/-- Tag-count accounting, generalized over the mid-transaction debt: every tag
row's `count` equals its reference count plus the number of times it occurs in
`pending`, the attachments already counted but not yet materialized as
through rows (or just removed from the documents side).  The committed
invariant is `TagCounts db []`. -/
def TagCounts (db : DB) (pending : List Nat) : Prop :=
  ∀ t ∈ db.tags, 1 ≤ t.count ∧ t.count = (refCount t.id db : Int) + (pending.count t.id : Int)

/-- Structural well-formedness of the tag table. -/
structure TagInv (db : DB) : Prop where
  tagIds : (db.tags.map Tag.id).Nodup
  tagIdLt : ∀ t ∈ db.tags, t.id < db.nextTagId
  tagTitles : (db.tags.map Tag.title).Nodup
  pairTagLt : ∀ p ∈ db.docTags, p.2 < db.nextTagId

/-- The full state invariant maintained by the committed revision
operations. -/
structure Inv (db : DB) : Prop where
  tagInv : TagInv db
  docIds : (db.documents.map Document.id).Nodup
  docIdLt : ∀ d ∈ db.documents, d.id < db.nextDocId
  hidLt : ∀ d ∈ db.documents, d.historyId < db.nextHid
  pairDocLt : ∀ p ∈ db.docTags, p.1 < db.nextDocId
  single : SingleHead db
  counts : TagCounts db []

/-- Concrete inputs used to exercise the theorems on closed instances. -/
def docA : DocInput :=
  ⟨none, some "alpha", some "hello", 1, [⟨some "red", some "#ff0000"⟩, ⟨some "blue", some "#0000ff"⟩]⟩

def docB : DocInput := ⟨none, some "beta", some "world", 2, [⟨some "red", some "#ff0000"⟩]⟩

def docC : DocInput := ⟨none, some "gamma", some "farewell", 1, [⟨some "red", some "#00ff00"⟩]⟩

/-- create two documents, edit the first, archive the second. -/
def opsW : List Op := [.create docA, .create docB, .update 1 docC, .archive 2]

/-- The store after running `opsW` from the empty store. -/
def dbW : DB := applyOps opsW db0

/-- The store holding two freshly created documents. -/
def dbU : DB := applyOps [.create docA, .create docB] db0

/-- The store after editing the first document of `dbU`. -/
def dbU2 : DB := (updateDocument 1 docC dbU).2

/-- A creation request whose tag color fails the 6-hex-digit validation. -/
def docBad : DocInput := ⟨none, some "t", some "c", 1, [⟨some "shiny", some "red"⟩]⟩

/-- The store after archiving the first revision of `dbU` in place. -/
def dbA1 : DB := (archiveDocumentInstance ⟨1, 1, false, "alpha", "hello", 1, 1⟩ dbU).2

/-! ## Tag ledger lemmas -/

theorem refCount_congr {db db' : DB} (hdocs : db'.documents = db.documents)
    (hpairs : db'.docTags = db.docTags) (x : Nat) : refCount x db' = refCount x db := by
  simp [refCount, hdocs, hpairs]

theorem increaseOrAddTag_ok {tin : TagInput} {db db' : DB} {t : Tag} {pending : List Nat}
    (hT : TagInv db) (hC : TagCounts db pending) (hP : ∀ x ∈ pending, x < db.nextTagId)
    (h : increaseOrAddTag tin db = (.ok t, db')) :
    TagInv db' ∧ TagCounts db' (pending ++ [t.id]) ∧
    t ∈ db'.tags ∧ t.title = setText tin.title ∧ t.id < db'.nextTagId ∧
    db.nextTagId ≤ db'.nextTagId ∧
    db'.documents = db.documents ∧ db'.docTags = db.docTags ∧
    db'.nextDocId = db.nextDocId ∧ db'.nextHid = db.nextHid ∧ db'.clock = db.clock ∧
    (∀ u ∈ db.tags, ∃ u' ∈ db'.tags, u'.id = u.id ∧ u'.title = u.title) := by
  simp only [increaseOrAddTag] at h
  cases hfind : db.tags.find? (fun u => u.title = setText tin.title) with
  | some foundTag =>
    rw [hfind] at h
    have hmem : foundTag ∈ db.tags := List.mem_of_find?_eq_some hfind
    have htitle : foundTag.title = setText tin.title := by
      have := List.find?_some hfind
      simpa using this
    cases hvc : validColor (setText tin.color) with
    | false => rw [hvc] at h; simp at h
    | true =>
      rw [hvc] at h
      simp only [if_true, Prod.mk.injEq, Except.ok.injEq] at h
      obtain ⟨ht, hdb⟩ := h
      set updated : Tag :=
        { foundTag with count := foundTag.count + 1, color := setText tin.color } with hupd
      set g : Tag → Tag := fun u => if u.id = foundTag.id then updated else u with hg
      have htags' : db'.tags = db.tags.map g := by rw [← hdb]
      have hfr : db'.documents = db.documents ∧ db'.docTags = db.docTags ∧
          db'.nextDocId = db.nextDocId ∧ db'.nextHid = db.nextHid ∧ db'.clock = db.clock ∧
          db'.nextTagId = db.nextTagId := by rw [← hdb]; exact ⟨rfl, rfl, rfl, rfl, rfl, rfl⟩
      obtain ⟨hfr1, hfr2, hfr3, hfr4, hfr5, hfr6⟩ := hfr
      have hrc : ∀ x, refCount x db' = refCount x db := refCount_congr hfr1 hfr2
      have hgid : ∀ u : Tag, (g u).id = u.id := by
        intro u
        by_cases hid : u.id = foundTag.id <;> simp [hg, hid, hupd]
      have hgtitle : ∀ u ∈ db.tags, (g u).title = u.title := by
        intro u hu
        by_cases hid : u.id = foundTag.id
        · have : u = foundTag := List.inj_on_of_nodup_map hT.tagIds hu hmem hid
          simp [hg, hid, hupd, this]
        · simp [hg, hid]
      have hids : db'.tags.map Tag.id = db.tags.map Tag.id := by
        rw [htags', List.map_map]
        exact List.map_congr_left (fun u _ => hgid u)
      have htitles : db'.tags.map Tag.title = db.tags.map Tag.title := by
        rw [htags', List.map_map]
        exact List.map_congr_left (fun u hu => hgtitle u hu)
      have hTI : TagInv db' := by
        refine ⟨?_, ?_, ?_, ?_⟩
        · rw [hids]; exact hT.tagIds
        · intro u hu
          rw [htags'] at hu
          obtain ⟨v, hv, rfl⟩ := List.mem_map.mp hu
          rw [hgid v, hfr6]
          exact hT.tagIdLt v hv
        · rw [htitles]; exact hT.tagTitles
        · intro p hp
          rw [hfr2] at hp
          rw [hfr6]
          exact hT.pairTagLt p hp
      have hmemup : t ∈ db'.tags := by
        rw [← ht, htags']
        have : g foundTag = updated := by simp [hg]
        rw [← this]
        exact List.mem_map_of_mem g hmem
      have hcounts : TagCounts db' (pending ++ [t.id]) := by
        intro u' hu'
        rw [htags'] at hu'
        obtain ⟨u, hu, rfl⟩ := List.mem_map.mp hu'
        rw [hrc, hgid u]
        by_cases hid : u.id = foundTag.id
        · have hueq : u = foundTag := List.inj_on_of_nodup_map hT.tagIds hu hmem hid
          subst hueq
          have hgu : g u = updated := by simp [hg]
          rw [hgu]
          obtain ⟨h1, h2⟩ := hC u hu
          have hcnt : (pending ++ [t.id]).count updated.id =
              pending.count u.id + 1 := by
            rw [← ht]
            simp [List.count_append, hupd]
          constructor
          · simp only [hupd]; omega
          · simp only [hupd] at hcnt ⊢
            rw [hcnt]
            push_cast
            omega
        · have hgu : g u = u := by simp [hg, hid]
          rw [hgu]
          obtain ⟨h1, h2⟩ := hC u hu
          have hne : u.id ≠ t.id := by
            rw [← ht]
            simpa [hupd] using hid
          have hcnt : (pending ++ [t.id]).count u.id = pending.count u.id := by
            simp [List.count_append, List.count_singleton']
            intro hcontra
            exact absurd hcontra.symm hne
          rw [hcnt]
          exact ⟨h1, h2⟩
      refine ⟨hTI, hcounts, hmemup, ?_, ?_, ?_, hfr1, hfr2, hfr3, hfr4, hfr5, ?_⟩
      · rw [← ht]; simpa [hupd] using htitle
      · rw [← ht, hfr6]
        simpa [hupd] using hT.tagIdLt foundTag hmem
      · omega
      · intro u hu
        refine ⟨g u, ?_, hgid u, hgtitle u hu⟩
        rw [htags']
        exact List.mem_map_of_mem g hu
  | none =>
    rw [hfind] at h
    have hno : ∀ u ∈ db.tags, ¬ (u.title = setText tin.title) := by
      intro u hu
      have := List.find?_eq_none.mp hfind u hu
      simpa using this
    by_cases hti : setText tin.title = ""
    · rw [if_pos hti] at h; simp at h
    · rw [if_neg hti] at h
      cases hvc : validColor (setText tin.color) with
      | false => rw [hvc] at h; simp at h
      | true =>
        rw [hvc] at h
        simp only [if_true, Prod.mk.injEq, Except.ok.injEq] at h
        obtain ⟨ht, hdb⟩ := h
        set created : Tag :=
          { id := db.nextTagId, title := setText tin.title, count := 1,
            color := setText tin.color } with hcr
        have htags' : db'.tags = db.tags ++ [created] := by rw [← hdb]
        have hfr : db'.documents = db.documents ∧ db'.docTags = db.docTags ∧
            db'.nextDocId = db.nextDocId ∧ db'.nextHid = db.nextHid ∧ db'.clock = db.clock ∧
            db'.nextTagId = db.nextTagId + 1 := by rw [← hdb]; exact ⟨rfl, rfl, rfl, rfl, rfl, rfl⟩
        obtain ⟨hfr1, hfr2, hfr3, hfr4, hfr5, hfr6⟩ := hfr
        have hrc : ∀ x, refCount x db' = refCount x db := refCount_congr hfr1 hfr2
        have hcid : created.id = db.nextTagId := by rw [hcr]
        have hctitle : created.title = setText tin.title := by rw [hcr]
        have hccount : created.count = 1 := by rw [hcr]
        have hTI : TagInv db' := by
          refine ⟨?_, ?_, ?_, ?_⟩
          · rw [htags', List.map_append]
            rw [List.nodup_append]
            refine ⟨hT.tagIds, List.nodup_singleton _, ?_⟩
            intro a ha
            obtain ⟨u, hu, rfl⟩ := List.mem_map.mp ha
            simp only [List.map_cons, List.map_nil, List.mem_singleton]
            intro hcontra
            have := hT.tagIdLt u hu
            omega
          · intro u hu
            rw [htags'] at hu
            rw [hfr6]
            rcases List.mem_append.mp hu with hu | hu
            · have := hT.tagIdLt u hu; omega
            · rw [List.mem_singleton.mp hu, hcid]; omega
          · rw [htags', List.map_append, List.nodup_append]
            refine ⟨hT.tagTitles, List.nodup_singleton _, ?_⟩
            intro a ha
            obtain ⟨u, hu, rfl⟩ := List.mem_map.mp ha
            simp only [List.map_cons, List.map_nil, List.mem_singleton]
            intro hcontra
            exact hno u hu hcontra
          · intro p hp
            rw [hfr2] at hp
            rw [hfr6]
            have := hT.pairTagLt p hp
            omega
        have hcmem : t ∈ db'.tags := by
          rw [← ht, htags']
          exact List.mem_append.mpr (Or.inr (List.mem_singleton.mpr rfl))
        have hrc0 : refCount created.id db = 0 := by
          simp only [refCount, refCountAux]
          apply List.countP_eq_zero.mpr
          intro d hd
          simp only [Bool.and_eq_true, Bool.not_eq_true', decide_eq_true_eq, not_and]
          intro _
          intro hcontra
          have hmem : (d.id, created.id) ∈ db.docTags := by
            simpa using hcontra
          have := hT.pairTagLt _ hmem
          rw [hcid] at this
          omega
        have hcounts : TagCounts db' (pending ++ [t.id]) := by
          intro u hu
          rw [htags'] at hu
          rw [hrc]
          rcases List.mem_append.mp hu with hu | hu
          · obtain ⟨h1, h2⟩ := hC u hu
            have hne : u.id ≠ t.id := by
              rw [← ht, hcid]
              have := hT.tagIdLt u hu
              omega
            have hcnt : (pending ++ [t.id]).count u.id = pending.count u.id := by
              simp [List.count_append, List.count_singleton']
              intro hcontra
              exact absurd hcontra.symm hne
            rw [hcnt]
            exact ⟨h1, h2⟩
          · rw [List.mem_singleton.mp hu]
            have hpend0 : pending.count created.id = 0 := by
              apply List.count_eq_zero_of_not_mem
              intro hcontra
              have := hP _ hcontra
              rw [hcid] at this
              omega
            have hcnt : (pending ++ [t.id]).count created.id = 1 := by
              rw [← ht]
              simp [List.count_append, hpend0]
            rw [hcnt, hrc0, hccount]
            norm_num
        refine ⟨hTI, hcounts, hcmem, ?_, ?_, ?_, hfr1, hfr2, hfr3, hfr4, hfr5, ?_⟩
        · rw [← ht, hctitle]
        · rw [← ht, hfr6, hcid]; omega
        · omega
        · intro u hu
          refine ⟨u, ?_, rfl, rfl⟩
          rw [htags']
          exact List.mem_append.mpr (Or.inl hu)

theorem attachTags_ok {tins : List TagInput} {db db' : DB} {ts : List Tag} {pending : List Nat}
    (hT : TagInv db) (hC : TagCounts db pending) (hP : ∀ x ∈ pending, x < db.nextTagId)
    (h : attachTags tins db = (.ok ts, db')) :
    TagInv db' ∧ TagCounts db' (pending ++ ts.map Tag.id) ∧
    (∀ x ∈ pending ++ ts.map Tag.id, x < db'.nextTagId) ∧
    db.nextTagId ≤ db'.nextTagId ∧
    db'.documents = db.documents ∧ db'.docTags = db.docTags ∧
    db'.nextDocId = db.nextDocId ∧ db'.nextHid = db.nextHid ∧ db'.clock = db.clock ∧
    (∀ u ∈ db.tags, ∃ u' ∈ db'.tags, u'.id = u.id ∧ u'.title = u.title) ∧
    (∀ tin ∈ tins, ∃ u ∈ db'.tags, u.title = setText tin.title ∧ u.id ∈ ts.map Tag.id) := by
  induction tins generalizing db pending ts with
  | nil =>
    simp only [attachTags, Prod.mk.injEq, Except.ok.injEq] at h
    obtain ⟨hts, hdb⟩ := h
    subst hdb
    subst hts
    simp only [List.map_nil, List.append_nil]
    exact ⟨hT, hC, hP, le_refl _, True.intro, True.intro, True.intro, True.intro, True.intro,
      fun u hu => ⟨u, hu, rfl, rfl⟩, by simp⟩
  | cons tin rest ih =>
    simp only [attachTags] at h
    cases hinc : increaseOrAddTag tin db with
    | mk r1 db1 =>
      rw [hinc] at h
      cases r1 with
      | error e => simp at h
      | ok t =>
        dsimp only at h
        cases hrest : attachTags rest db1 with
        | mk r2 db2 =>
          rw [hrest] at h
          cases r2 with
          | error e => simp at h
          | ok ts' =>
            dsimp only at h
            simp only [Prod.mk.injEq, Except.ok.injEq] at h
            obtain ⟨hts, hdb⟩ := h
            subst hdb
            subst hts
            obtain ⟨hT1, hC1, htmem, httitle, htlt, hmono, hd1, hp1, hn1, hh1, hc1, hpers1⟩ :=
              increaseOrAddTag_ok hT hC hP hinc
            have hP1 : ∀ x ∈ pending ++ [t.id], x < db1.nextTagId := by
              intro x hx
              rcases List.mem_append.mp hx with hx | hx
              · exact lt_of_lt_of_le (hP x hx) hmono
              · rw [List.mem_singleton.mp hx]; exact htlt
            obtain ⟨hT2, hC2, hP2, hmono2, hd2, hp2, hn2, hh2, hc2, hpers2, hins2⟩ :=
              ih hT1 hC1 hP1 hrest
            have hshape : (pending ++ [t.id]) ++ ts'.map Tag.id =
                pending ++ (t :: ts').map Tag.id := by
              simp [List.append_assoc]
            refine ⟨hT2, ?_, ?_, le_trans hmono hmono2,
              hd2.trans hd1, hp2.trans hp1, hn2.trans hn1, hh2.trans hh1, hc2.trans hc1,
              ?_, ?_⟩
            · rw [← hshape]; exact hC2
            · intro x hx
              rw [← hshape] at hx
              exact hP2 x hx
            · intro u hu
              obtain ⟨u1, hu1, hid1, htit1⟩ := hpers1 u hu
              obtain ⟨u2, hu2, hid2, htit2⟩ := hpers2 u1 hu1
              exact ⟨u2, hu2, hid2.trans hid1, htit2.trans htit1⟩
            · intro tin' htin'
              rcases List.mem_cons.mp htin' with htin' | htin'
              · obtain ⟨u2, hu2, hid2, htit2⟩ := hpers2 t htmem
                refine ⟨u2, hu2, htit2.trans ?_, ?_⟩
                · rw [htin']; exact httitle
                · rw [hid2]
                  simp
              · obtain ⟨u, hu, htit, hid⟩ := hins2 tin' htin'
                refine ⟨u, hu, htit, ?_⟩
                simp only [List.map_cons, List.mem_cons]
                exact Or.inr hid

theorem TagInv_congr {db db' : DB} (h1 : db'.tags = db.tags) (h2 : db'.docTags = db.docTags)
    (h3 : db'.nextTagId = db.nextTagId) (hT : TagInv db) : TagInv db' := by
  refine ⟨?_, ?_, ?_, ?_⟩
  · rw [h1]; exact hT.tagIds
  · intro t ht; rw [h1] at ht; rw [h3]; exact hT.tagIdLt t ht
  · rw [h1]; exact hT.tagTitles
  · intro p hp; rw [h2] at hp; rw [h3]; exact hT.pairTagLt p hp

theorem refCount_append_fresh {db : DB} {d : Document}
    (hpair : ∀ p ∈ db.docTags, p.1 ≠ d.id) (x : Nat) :
    refCountAux (db.documents ++ [d]) db.docTags x = refCount x db := by
  show (db.documents ++ [d]).countP _ = _
  rw [List.countP_append]
  have hnot : (d.id, x) ∉ db.docTags := by
    intro hmem
    exact hpair _ hmem rfl
  have h0 : List.countP (fun dd => !dd.isArchived && db.docTags.contains (dd.id, x)) [d] = 0 := by
    simp [List.countP_cons, hnot]
  rw [h0]
  rfl

theorem refCount_setTags {db : DB} {d : Document} {ids : List Nat}
    (hdocs : ∀ dd ∈ db.documents, dd.id ≠ d.id)
    (hpair : ∀ p ∈ db.docTags, p.1 ≠ d.id)
    (harch : d.isArchived = false) (x : Nat) :
    refCountAux (db.documents ++ [d]) (db.docTags ++ ids.map (fun i => (d.id, i))) x
      = refCount x db + (if x ∈ ids then 1 else 0) := by
  show (db.documents ++ [d]).countP _ = _
  rw [List.countP_append]
  have hold : db.documents.countP
      (fun dd => !dd.isArchived && (db.docTags ++ ids.map (fun i => (d.id, i))).contains (dd.id, x))
      = refCount x db := by
    apply List.countP_congr
    intro dd hdd
    have hnot : (dd.id, x) ∉ ids.map (fun i => (d.id, i)) := by
      intro hmem
      obtain ⟨i, _, heq⟩ := List.mem_map.mp hmem
      exact hdocs dd hdd (by injection heq with h1 h2; exact h1.symm)
    by_cases hm : (dd.id, x) ∈ db.docTags <;> simp [hm, hnot]
  rw [hold]
  have hdnot : (d.id, x) ∉ db.docTags := fun hmem => hpair _ hmem rfl
  have hpairmem : ((d.id, x) ∈ ids.map (fun i => (d.id, i))) ↔ x ∈ ids := by
    constructor
    · intro hmem
      obtain ⟨i, hi, heq⟩ := List.mem_map.mp hmem
      injection heq with h1 h2
      rw [← h2]; exact hi
    · intro hx
      exact List.mem_map.mpr ⟨x, hx, rfl⟩
  by_cases hx : x ∈ ids
  · simp [List.countP_cons, harch, hdnot, hpairmem, hx]
  · simp [List.countP_cons, harch, hdnot, hpairmem, hx]

theorem addDocument_ok {doc : DocInput} {db db' : DB} {nd : Document}
    (hI : Inv db)
    (hhid : ∀ x ∈ doc.historyId, x < db.nextHid ∧
      ∀ d ∈ db.documents, d.historyId = x → d.isArchived = true)
    (h : addDocument doc db = (.ok nd, db')) :
    Inv db' ∧
    nd.id = db.nextDocId ∧ nd.isArchived = false ∧
    nd.historyId = doc.historyId.getD db.nextHid ∧
    nd.title = setText doc.title ∧ nd.content = setText doc.content ∧
    nd.authorId = doc.authorId ∧ nd.updatedAt = db.clock ∧
    db'.documents = db.documents ++ [nd] ∧
    db'.nextDocId = db.nextDocId + 1 ∧ db.nextHid ≤ db'.nextHid ∧
    db.nextTagId ≤ db'.nextTagId ∧
    (doc.historyId.isSome = true → db'.nextHid = db.nextHid) ∧
    (∀ p ∈ db.docTags, p ∈ db'.docTags) ∧
    (∀ tin ∈ doc.tags, ∃ u ∈ db'.tags, u.title = setText tin.title ∧ (nd.id, u.id) ∈ db'.docTags) := by
  simp only [addDocument] at h
  split at h
  · simp at h
  · split at h
    · simp at h
    · split at h
      · simp at h
      · rename_i htitle hcontent hscr ts db2 hat
        split at h
        · simp at h
        · rename_i hscr2 u db3 hst
          simp only [Prod.mk.injEq, Except.ok.injEq] at h
          obtain ⟨hnd, hdb⟩ := h
          subst hdb
          have hndid : nd.id = db.nextDocId := by rw [← hnd]
          have hndarch : nd.isArchived = false := by rw [← hnd]
          have hndhid : nd.historyId = doc.historyId.getD db.nextHid := by rw [← hnd]
          have hndtitle : nd.title = setText doc.title := by rw [← hnd]
          have hndcontent : nd.content = setText doc.content := by rw [← hnd]
          have hndauthor : nd.authorId = doc.authorId := by rw [← hnd]
          have hndupd : nd.updatedAt = db.clock := by rw [← hnd]
          rw [hnd] at hat
          have hfreshpair : ∀ p ∈ db.docTags, p.1 ≠ nd.id := by
            intro p hp
            have := hI.pairDocLt p hp
            omega
          have hfreshdoc : ∀ dd ∈ db.documents, dd.id ≠ nd.id := by
            intro dd hdd
            have := hI.docIdLt dd hdd
            omega
          generalize hdb1 : ({ documents := db.documents ++ [nd],
                               tags := db.tags,
                               docTags := db.docTags,
                               nextDocId := db.nextDocId + 1,
                               nextTagId := db.nextTagId,
                               nextHid := if doc.historyId.isNone = true then db.nextHid + 1 else db.nextHid,
                               clock := db.clock + 1 } : DB) = db1 at hat
          have e1 : db1.tags = db.tags := by rw [← hdb1]
          have e2 : db1.docTags = db.docTags := by rw [← hdb1]
          have e3 : db1.nextTagId = db.nextTagId := by rw [← hdb1]
          have e4 : db1.documents = db.documents ++ [nd] := by rw [← hdb1]
          have e5 : db1.nextHid =
              (if doc.historyId.isNone = true then db.nextHid + 1 else db.nextHid) := by
            rw [← hdb1]
          have e6 : db1.nextDocId = db.nextDocId + 1 := by rw [← hdb1]
          have e7 : db1.clock = db.clock + 1 := by rw [← hdb1]
          have hT1 : TagInv db1 := TagInv_congr e1 e2 e3 hI.tagInv
          have hC1 : TagCounts db1 [] := by
            intro t ht
            rw [e1] at ht
            obtain ⟨h1, h2⟩ := hI.counts t ht
            refine ⟨h1, ?_⟩
            have heq : refCount t.id db1 = refCount t.id db := by
              rw [refCount, e4, e2]
              exact refCount_append_fresh hfreshpair t.id
            rw [heq]
            exact h2
          have hP1 : ∀ x ∈ ([] : List Nat), x < db1.nextTagId := by simp
          obtain ⟨hT2, hC2, hP2, hmono2, hd2, hp2, hn2, hh2, hc2, hpers2, hins2⟩ :=
            attachTags_ok hT1 hC1 hP1 hat
          simp only [setTags] at hst
          split at hst
          · rename_i hnodup
            simp only [Prod.mk.injEq, Except.ok.injEq] at hst
            obtain ⟨_, hdb3⟩ := hst
            have hndid' : db.nextDocId = nd.id := hndid.symm
            have hfilter : db2.docTags.filter (fun p => p.1 ≠ db.nextDocId) = db2.docTags := by
              apply List.filter_eq_self.mpr
              intro p hp
              rw [hp2, e2] at hp
              have := hI.pairDocLt p hp
              simpa using by omega
            have f2 : db3.docTags =
                db.docTags ++ (ts.map Tag.id).map (fun i => (db.nextDocId, i)) := by
              rw [← hdb3]
              show db2.docTags.filter (fun p => p.1 ≠ db.nextDocId) ++
                (ts.map Tag.id).map (fun i => (db.nextDocId, i)) = _
              rw [hfilter, hp2, e2]
            have f1 : db3.tags = db2.tags := by rw [← hdb3]
            have f4 : db3.documents = db.documents ++ [nd] := by
              rw [← hdb3]
              show db2.documents = _
              rw [hd2, e4]
            have f6 : db3.nextDocId = db.nextDocId + 1 := by
              rw [← hdb3]
              show db2.nextDocId = _
              rw [hn2, e6]
            have f3 : db3.nextTagId = db2.nextTagId := by rw [← hdb3]
            have f5 : db3.nextHid =
                (if doc.historyId.isNone = true then db.nextHid + 1 else db.nextHid) := by
              rw [← hdb3]
              show db2.nextHid = _
              rw [hh2, e5]
            have hInv3 : Inv db3 := by
              refine ⟨?_, ?_, ?_, ?_, ?_, ?_, ?_⟩
              · refine ⟨?_, ?_, ?_, ?_⟩
                · rw [f1]; exact hT2.tagIds
                · intro t ht
                  rw [f1] at ht
                  rw [f3]
                  exact hT2.tagIdLt t ht
                · rw [f1]; exact hT2.tagTitles
                · intro p hp
                  rw [f2] at hp
                  rw [f3]
                  rcases List.mem_append.mp hp with hp | hp
                  · have h0 := hI.tagInv.pairTagLt p hp
                    have h0' : db.nextTagId ≤ db2.nextTagId := by rw [← e3]; exact hmono2
                    omega
                  · obtain ⟨i, hi, rfl⟩ := List.mem_map.mp hp
                    exact hP2 i (by simpa using hi)
              · rw [f4, List.map_append]
                rw [List.nodup_append]
                refine ⟨hI.docIds, List.nodup_singleton _, ?_⟩
                intro a ha hb
                obtain ⟨dd, hdd, rfl⟩ := List.mem_map.mp ha
                simp only [List.map_cons, List.map_nil, List.mem_singleton] at hb
                exact hfreshdoc dd hdd hb
              · intro dd hdd
                rw [f4] at hdd
                rw [f6]
                rcases List.mem_append.mp hdd with hdd | hdd
                · have := hI.docIdLt dd hdd; omega
                · rw [List.mem_singleton.mp hdd]; omega
              · intro dd hdd
                rw [f4] at hdd
                rw [f5]
                rcases List.mem_append.mp hdd with hdd | hdd
                · have := hI.hidLt dd hdd
                  split <;> omega
                · rw [List.mem_singleton.mp hdd, hndhid]
                  cases hcase : doc.historyId with
                  | none => simp [hcase]
                  | some x =>
                    have := (hhid x (by rw [hcase]; rfl)).1
                    simp [hcase]
                    omega
              · intro p hp
                rw [f2] at hp
                rw [f6]
                rcases List.mem_append.mp hp with hp | hp
                · have := hI.pairDocLt p hp; omega
                · obtain ⟨i, hi, rfl⟩ := List.mem_map.mp hp
                  omega
              · intro d1 hd1 d2 hd2x ha1 ha2 hhid12
                rw [f4] at hd1 hd2x
                rcases List.mem_append.mp hd1 with hd1 | hd1 <;>
                  rcases List.mem_append.mp hd2x with hd2x | hd2x
                · exact hI.single d1 hd1 d2 hd2x ha1 ha2 hhid12
                · exfalso
                  rw [List.mem_singleton.mp hd2x, hndhid] at hhid12
                  cases hcase : doc.historyId with
                  | none =>
                    rw [hcase] at hhid12
                    simp at hhid12
                    have := hI.hidLt d1 hd1
                    omega
                  | some x =>
                    rw [hcase] at hhid12
                    simp at hhid12
                    have := (hhid x (by rw [hcase]; rfl)).2 d1 hd1 hhid12
                    rw [ha1] at this
                    simp at this
                · exfalso
                  rw [List.mem_singleton.mp hd1, hndhid] at hhid12
                  cases hcase : doc.historyId with
                  | none =>
                    rw [hcase] at hhid12
                    simp at hhid12
                    have := hI.hidLt d2 hd2x
                    omega
                  | some x =>
                    rw [hcase] at hhid12
                    simp at hhid12
                    have := (hhid x (by rw [hcase]; rfl)).2 d2 hd2x hhid12.symm
                    rw [ha2] at this
                    simp at this
                · rw [List.mem_singleton.mp hd1, List.mem_singleton.mp hd2x]
              · intro t ht
                rw [f1] at ht
                obtain ⟨h1, h2⟩ := hC2 t ht
                refine ⟨h1, ?_⟩
                have hrc3 : refCount t.id db3 = refCount t.id db +
                    (if t.id ∈ ts.map Tag.id then 1 else 0) := by
                  rw [refCount, f4, f2, hndid']
                  exact refCount_setTags hfreshdoc hfreshpair hndarch t.id
                have hrc2 : refCount t.id db2 = refCount t.id db := by
                  rw [refCount, hd2, hp2, e4, e2]
                  exact refCount_append_fresh hfreshpair t.id
                have hcount : (ts.map Tag.id).count t.id =
                    (if t.id ∈ ts.map Tag.id then 1 else 0) := by
                  by_cases hmem : t.id ∈ ts.map Tag.id
                  · rw [if_pos hmem]
                    exact List.count_eq_one_of_mem hnodup hmem
                  · rw [if_neg hmem]
                    exact List.count_eq_zero_of_not_mem hmem
                rw [hrc3]
                rw [hrc2] at h2
                simp only [List.nil_append] at h2
                rw [hcount] at h2
                rw [h2]
                push_cast
                by_cases hmem : t.id ∈ ts.map Tag.id <;> simp [hmem]
            refine ⟨hInv3, hndid, hndarch, hndhid, hndtitle, hndcontent, hndauthor, hndupd,
              f4, f6, ?_, ?_, ?_, ?_, ?_⟩
            · rw [f5]
              split <;> omega
            · rw [f3, ← e3]; exact hmono2
            · intro hsome
              rw [f5]
              have hfalse : doc.historyId.isNone = false := by
                cases hop : doc.historyId with
                | none => rw [hop] at hsome; simp at hsome
                | some x => rfl
              rw [hfalse]
              simp
            · intro p hp
              rw [f2]
              exact List.mem_append.mpr (Or.inl hp)
            · intro tin htin
              obtain ⟨u', hu', htit', hid'⟩ := hins2 tin htin
              refine ⟨u', by rw [f1]; exact hu', htit', ?_⟩
              rw [f2, hndid]
              refine List.mem_append.mpr (Or.inr ?_)
              exact List.mem_map.mpr ⟨u'.id, hid', rfl⟩
          · simp at hst

theorem decreaseOrRemoveTag_ok {x : Nat} {rest : List Nat} {db : DB}
    (hT : TagInv db) (hC : TagCounts db (x :: rest))
    (hx : ∃ t ∈ db.tags, t.id = x) (hxr : x ∉ rest) :
    ∃ t db', decreaseOrRemoveTag x db = (.ok t, db') ∧
      TagInv db' ∧ TagCounts db' rest ∧
      db'.documents = db.documents ∧ db'.docTags = db.docTags ∧
      db'.nextDocId = db.nextDocId ∧ db'.nextTagId = db.nextTagId ∧
      db'.nextHid = db.nextHid ∧ db'.clock = db.clock ∧
      (∀ y ∈ rest, (∃ u ∈ db.tags, u.id = y) → ∃ u ∈ db'.tags, u.id = y) := by
  obtain ⟨t0, ht0, ht0x⟩ := hx
  have hfind : ∃ t1, db.tags.find? (fun t => t.id = x) = some t1 := by
    have : (db.tags.find? (fun t => t.id = x)).isSome = true := by
      rw [List.find?_isSome]
      exact ⟨t0, ht0, by simp [ht0x]⟩
    exact Option.isSome_iff_exists.mp this
  obtain ⟨t1, hfind⟩ := hfind
  have ht1mem : t1 ∈ db.tags := List.mem_of_find?_eq_some hfind
  have ht1x : t1.id = x := by
    have := List.find?_some hfind
    simpa using this
  obtain ⟨hpos, hcnt⟩ := hC t1 ht1mem
  have hcntrest : rest.count t1.id = 0 := by
    apply List.count_eq_zero_of_not_mem
    rw [ht1x]
    exact hxr
  have hcnteq : t1.count = (refCount t1.id db : Int) + 1 := by
    rw [hcnt, ht1x]
    simp [List.count_cons, ← ht1x, hcntrest]
  simp only [decreaseOrRemoveTag]
  rw [hfind]
  dsimp only
  by_cases hone : t1.count = 1
  · rw [if_pos hone]
    refine ⟨t1, _, rfl, ?_, ?_, rfl, rfl, rfl, rfl, rfl, rfl, ?_⟩
    · refine ⟨?_, ?_, ?_, ?_⟩
      · exact List.Nodup.sublist (List.Sublist.map _ (List.filter_sublist _)) hT.tagIds
      · intro t ht
        exact hT.tagIdLt t (List.mem_of_mem_filter ht)
      · exact List.Nodup.sublist (List.Sublist.map _ (List.filter_sublist _)) hT.tagTitles
      · exact hT.pairTagLt
    · intro u hu
      have hu' := List.mem_filter.mp hu
      obtain ⟨humem, hupred⟩ := hu'
      have huneq : u.id ≠ x := by simpa using hupred
      obtain ⟨h1, h2⟩ := hC u humem
      refine ⟨h1, ?_⟩
      rw [h2]
      have hcc : (x :: rest).count u.id = rest.count u.id := by
        simp [List.count_cons]
        intro hcontra
        exact huneq hcontra.symm
      rw [hcc]
      rfl
    · intro y hy hex
      obtain ⟨u, hu, huy⟩ := hex
      refine ⟨u, ?_, huy⟩
      apply List.mem_filter.mpr
      refine ⟨hu, ?_⟩
      simp only [decide_eq_true_eq]
      rw [huy]
      intro hcontra
      exact hxr (hcontra ▸ hy)
  · rw [if_neg hone]
    have hupdid : ({ t1 with count := t1.count - 1 } : Tag).id = t1.id := rfl
    have hgid : ∀ u : Tag, (if u.id = x then { t1 with count := t1.count - 1 } else u).id = u.id := by
      intro u
      by_cases hid : u.id = x
      · rw [if_pos hid, hupdid, ht1x, hid]
      · rw [if_neg hid]
    have hgtitle : ∀ u ∈ db.tags,
        (if u.id = x then { t1 with count := t1.count - 1 } else u).title = u.title := by
      intro u hu
      by_cases hid : u.id = x
      · have hueq : u = t1 := List.inj_on_of_nodup_map hT.tagIds hu ht1mem (by rw [hid, ht1x])
        rw [if_pos hid, hueq]
      · rw [if_neg hid]
    refine ⟨_, _, rfl, ?_, ?_, rfl, rfl, rfl, rfl, rfl, rfl, ?_⟩
    · refine ⟨?_, ?_, ?_, ?_⟩
      · have heq : (db.tags.map (fun t =>
            if t.id = x then { t1 with count := t1.count - 1 } else t)).map Tag.id =
            db.tags.map Tag.id := by
          rw [List.map_map]
          exact List.map_congr_left (fun u _ => hgid u)
        rw [heq]
        exact hT.tagIds
      · intro t ht
        obtain ⟨v, hv, rfl⟩ := List.mem_map.mp ht
        rw [hgid v]
        exact hT.tagIdLt v hv
      · have heq : (db.tags.map (fun t =>
            if t.id = x then { t1 with count := t1.count - 1 } else t)).map Tag.title =
            db.tags.map Tag.title := by
          rw [List.map_map]
          exact List.map_congr_left (fun u hu => hgtitle u hu)
        rw [heq]
        exact hT.tagTitles
      · exact hT.pairTagLt
    · intro u' hu'
      obtain ⟨u, hu, rfl⟩ := List.mem_map.mp hu'
      rw [hgid u]
      by_cases hid : u.id = x
      · have hueq : u = t1 := List.inj_on_of_nodup_map hT.tagIds hu ht1mem (by rw [hid, ht1x])
        subst hueq
        rw [if_pos hid]
        have hrest0 : rest.count u.id = 0 := by
          apply List.count_eq_zero_of_not_mem
          rw [ht1x]
          exact hxr
        constructor
        · show (1 : Int) ≤ u.count - 1
          have hge : (0 : Int) ≤ (refCount u.id db : Int) := Int.ofNat_nonneg _
          omega
        · show u.count - 1 = (refCount u.id db : Int) + (rest.count u.id : Int)
          rw [hrest0]
          omega
      · rw [if_neg hid]
        obtain ⟨h1, h2⟩ := hC u hu
        refine ⟨h1, ?_⟩
        rw [h2]
        have hcc : (x :: rest).count u.id = rest.count u.id := by
          simp [List.count_cons]
          intro hcontra
          exact hid hcontra.symm
        rw [hcc]
        rfl
    · intro y hy hex
      obtain ⟨u, hu, huy⟩ := hex
      refine ⟨if u.id = x then { t1 with count := t1.count - 1 } else u,
        List.mem_map_of_mem _ hu, ?_⟩
      rw [hgid u]
      exact huy

theorem decTags_ok {pending : List Nat} {db : DB}
    (hT : TagInv db) (hC : TagCounts db pending) (hN : pending.Nodup)
    (hx : ∀ y ∈ pending, ∃ u ∈ db.tags, u.id = y) :
    ∃ db', decTags pending db = (.ok (), db') ∧ TagInv db' ∧ TagCounts db' [] ∧
      db'.documents = db.documents ∧ db'.docTags = db.docTags ∧
      db'.nextDocId = db.nextDocId ∧ db'.nextTagId = db.nextTagId ∧
      db'.nextHid = db.nextHid ∧ db'.clock = db.clock := by
  induction pending generalizing db with
  | nil => exact ⟨db, rfl, hT, hC, rfl, rfl, rfl, rfl, rfl, rfl⟩
  | cons x rest ih =>
    have hxr : x ∉ rest := (List.nodup_cons.mp hN).1
    have hNrest : rest.Nodup := (List.nodup_cons.mp hN).2
    obtain ⟨t, db1, heq, hT1, hC1, hd1, hp1, hn1, htg1, hh1, hc1, hpres⟩ :=
      decreaseOrRemoveTag_ok hT hC (hx x (List.mem_cons_self x rest)) hxr
    have hx1 : ∀ y ∈ rest, ∃ u ∈ db1.tags, u.id = y := by
      intro y hy
      exact hpres y hy (hx y (List.mem_cons_of_mem x hy))
    obtain ⟨db2, heq2, hT2, hC2, hd2, hp2, hn2, htg2, hh2, hc2⟩ := ih hT1 hC1 hNrest hx1
    refine ⟨db2, ?_, hT2, hC2, hd2.trans hd1, hp2.trans hp1, hn2.trans hn1,
      htg2.trans htg1, hh2.trans hh1, hc2.trans hc1⟩
    simp only [decTags]
    rw [heq]
    exact heq2

theorem refCount_flip {db : DB} {d : Document} (hd : d ∈ db.documents)
    (hids : (db.documents.map Document.id).Nodup) (harch : d.isArchived = false)
    (c x : Nat) :
    refCount x db =
      refCountAux (db.documents.map (fun dd =>
        if dd.id = d.id then { dd with isArchived := true, updatedAt := c } else dd)) db.docTags x
      + (if (d.id, x) ∈ db.docTags then 1 else 0) := by
  obtain ⟨l1, l2, hsplit⟩ := List.append_of_mem hd
  have hids' := hids
  rw [hsplit, List.map_append, List.map_cons] at hids'
  have h1 : ∀ a ∈ l1, a.id ≠ d.id := by
    intro a ha hcontra
    have hmem1 : d.id ∈ l1.map Document.id := by
      rw [← hcontra]
      exact List.mem_map_of_mem _ ha
    have hdisj := (List.nodup_append.mp hids').2.2
    exact hdisj hmem1 (List.mem_cons_self _ _)
  have h2 : ∀ a ∈ l2, a.id ≠ d.id := by
    intro a ha hcontra
    have hmem2 : d.id ∈ l2.map Document.id := by
      rw [← hcontra]
      exact List.mem_map_of_mem _ ha
    have hn := (List.nodup_append.mp hids').2.1
    exact (List.nodup_cons.mp hn).1 hmem2
  rw [refCount, refCountAux, refCountAux, hsplit]
  rw [List.map_append, List.map_cons]
  rw [List.countP_append, List.countP_cons, List.countP_append, List.countP_cons]
  have e1 : List.countP
      (fun dd => !dd.isArchived && db.docTags.contains (dd.id, x))
      (l1.map (fun dd => if dd.id = d.id then { dd with isArchived := true, updatedAt := c } else dd)) =
      List.countP (fun dd => !dd.isArchived && db.docTags.contains (dd.id, x)) l1 := by
    rw [List.countP_map]
    apply List.countP_congr
    intro a ha
    rw [Function.comp_apply, if_neg (h1 a ha)]
  have e2 : List.countP
      (fun dd => !dd.isArchived && db.docTags.contains (dd.id, x))
      (l2.map (fun dd => if dd.id = d.id then { dd with isArchived := true, updatedAt := c } else dd)) =
      List.countP (fun dd => !dd.isArchived && db.docTags.contains (dd.id, x)) l2 := by
    rw [List.countP_map]
    apply List.countP_congr
    intro a ha
    rw [Function.comp_apply, if_neg (h2 a ha)]
  rw [e1, e2]
  have e3 : (if (fun dd => !dd.isArchived && db.docTags.contains (dd.id, x))
      (if d.id = d.id then { d with isArchived := true, updatedAt := c } else d) = true
      then 1 else 0) = 0 := by
    rw [if_pos rfl]
    simp
  have e4 : (if (fun dd => !dd.isArchived && db.docTags.contains (dd.id, x)) d = true
      then 1 else 0) = (if (d.id, x) ∈ db.docTags then 1 else 0) := by
    by_cases hm : (d.id, x) ∈ db.docTags
    · rw [if_pos hm]
      simp [harch, hm]
    · rw [if_neg hm]
      simp [harch, hm]
  rw [e3, e4]
  omega

theorem archiveDocumentInstance_ok {d : Document} {db : DB}
    (hI : Inv db) (hd : d ∈ db.documents) (harch : d.isArchived = false) :
    ∃ db', archiveDocumentInstance d db = (.ok d, db') ∧ Inv db' ∧
      db'.documents = db.documents.map (fun x =>
        if x.id = d.id then { x with isArchived := true, updatedAt := db.clock } else x) ∧
      db'.docTags = db.docTags ∧ db'.nextDocId = db.nextDocId ∧
      db'.nextHid = db.nextHid ∧ db'.nextTagId = db.nextTagId ∧ db'.clock = db.clock + 1 ∧
      (∀ x ∈ db'.documents, x.historyId = d.historyId → x.isArchived = true) := by
  simp only [archiveDocumentInstance]
  generalize hdb1 : ({ documents := db.documents.map (fun x =>
      if x.id = d.id then { x with isArchived := true, updatedAt := db.clock } else x),
                       tags := db.tags,
                       docTags := db.docTags,
                       nextDocId := db.nextDocId,
                       nextTagId := db.nextTagId,
                       nextHid := db.nextHid,
                       clock := db.clock + 1 } : DB) = db1
  have e1 : db1.tags = db.tags := by rw [← hdb1]
  have e2 : db1.docTags = db.docTags := by rw [← hdb1]
  have e3 : db1.nextTagId = db.nextTagId := by rw [← hdb1]
  have e4 : db1.documents = db.documents.map (fun x =>
      if x.id = d.id then { x with isArchived := true, updatedAt := db.clock } else x) := by
    rw [← hdb1]
  have e5 : db1.nextHid = db.nextHid := by rw [← hdb1]
  have e6 : db1.nextDocId = db.nextDocId := by rw [← hdb1]
  have e7 : db1.clock = db.clock + 1 := by rw [← hdb1]
  have hT1 : TagInv db1 := TagInv_congr e1 e2 e3 hI.tagInv
  have hgt : getTags d.id db1 = db.tags.filter (fun t => db.docTags.contains (d.id, t.id)) := by
    rw [getTags, e1, e2]
  have hN : ((getTags d.id db1).map Tag.id).Nodup := by
    rw [hgt]
    exact List.Nodup.sublist (List.Sublist.map _ (List.filter_sublist _)) hI.tagInv.tagIds
  have hx : ∀ y ∈ (getTags d.id db1).map Tag.id, ∃ u ∈ db1.tags, u.id = y := by
    intro y hy
    rw [hgt] at hy
    obtain ⟨v, hv, rfl⟩ := List.mem_map.mp hy
    exact ⟨v, by rw [e1]; exact List.mem_of_mem_filter hv, rfl⟩
  have hmemiff : ∀ u ∈ db.tags, (u.id ∈ (getTags d.id db1).map Tag.id ↔ (d.id, u.id) ∈ db.docTags) := by
    intro u hu
    rw [hgt]
    constructor
    · intro hmem
      obtain ⟨v, hv, hvid⟩ := List.mem_map.mp hmem
      have hvmem := List.mem_of_mem_filter hv
      have hveq : v = u := List.inj_on_of_nodup_map hI.tagInv.tagIds hvmem hu hvid
      have hpred := (List.mem_filter.mp hv).2
      rw [hveq] at hpred
      simpa using hpred
    · intro hmem
      apply List.mem_map.mpr
      refine ⟨u, ?_, rfl⟩
      apply List.mem_filter.mpr
      exact ⟨hu, by simpa using hmem⟩
  have hC1 : TagCounts db1 ((getTags d.id db1).map Tag.id) := by
    intro u hu
    rw [e1] at hu
    obtain ⟨h1, h2⟩ := hI.counts u hu
    refine ⟨h1, ?_⟩
    have hflip := refCount_flip hd hI.docIds harch db.clock u.id
    have hcnt : ((getTags d.id db1).map Tag.id).count u.id =
        (if (d.id, u.id) ∈ db.docTags then 1 else 0) := by
      by_cases hm : (d.id, u.id) ∈ db.docTags
      · rw [if_pos hm]
        exact List.count_eq_one_of_mem hN ((hmemiff u hu).mpr hm)
      · rw [if_neg hm]
        exact List.count_eq_zero_of_not_mem (fun hc => hm ((hmemiff u hu).mp hc))
    have hrc1 : refCount u.id db1 = refCountAux (db.documents.map (fun x =>
        if x.id = d.id then { x with isArchived := true, updatedAt := db.clock } else x))
        db.docTags u.id := by
      rw [refCount, e4, e2]
    rw [hcnt, hrc1]
    have h2' : u.count = (refCount u.id db : Int) := by simpa using h2
    by_cases hm : (d.id, u.id) ∈ db.docTags
    · rw [if_pos hm] at hflip ⊢
      omega
    · rw [if_neg hm] at hflip ⊢
      omega
  obtain ⟨db2, heq2, hT2, hC2, hd2, hp2, hn2, htg2, hh2, hc2⟩ := decTags_ok hT1 hC1 hN hx
  rw [heq2]
  have hdocs2 : db2.documents = db.documents.map (fun x =>
      if x.id = d.id then { x with isArchived := true, updatedAt := db.clock } else x) := by
    rw [hd2, e4]
  have hflipid : ∀ x : Document, ((fun x =>
      if x.id = d.id then { x with isArchived := true, updatedAt := db.clock } else x) x).id = x.id := by
    intro x
    by_cases hid : x.id = d.id <;> simp [hid]
  have hfliphid : ∀ x : Document, ((fun x =>
      if x.id = d.id then { x with isArchived := true, updatedAt := db.clock } else x) x).historyId = x.historyId := by
    intro x
    by_cases hid : x.id = d.id <;> simp [hid]
  have harchived : ∀ x ∈ db2.documents, x.historyId = d.historyId → x.isArchived = true := by
    intro x hx2 hhid2
    rw [hdocs2] at hx2
    obtain ⟨x0, hx0, rfl⟩ := List.mem_map.mp hx2
    by_cases hid : x0.id = d.id
    · simp [hid]
    · rw [if_neg hid] at hhid2 ⊢
      by_cases ha0 : x0.isArchived
      · exact ha0
      · exfalso
        have heq0 : x0 = d := hI.single x0 hx0 d hd (by simpa using ha0) harch hhid2
        rw [heq0] at hid
        exact hid rfl
  refine ⟨db2, rfl, ?_, hdocs2, hp2.trans e2, hn2.trans e6, hh2.trans e5, htg2.trans e3,
    hc2.trans e7, harchived⟩
  refine ⟨hT2, ?_, ?_, ?_, ?_, ?_, hC2⟩
  · rw [hdocs2, List.map_map]
    have : (db.documents.map fun x => ((fun x =>
        if x.id = d.id then { x with isArchived := true, updatedAt := db.clock } else x) x).id) =
        db.documents.map Document.id := List.map_congr_left (fun a _ => hflipid a)
    rw [Function.comp_def]
    rw [this]
    exact hI.docIds
  · intro dd hdd
    rw [hdocs2] at hdd
    obtain ⟨x0, hx0, rfl⟩ := List.mem_map.mp hdd
    rw [hflipid x0]
    rw [hn2, e6]
    exact hI.docIdLt x0 hx0
  · intro dd hdd
    rw [hdocs2] at hdd
    obtain ⟨x0, hx0, rfl⟩ := List.mem_map.mp hdd
    rw [hfliphid x0]
    rw [hh2, e5]
    exact hI.hidLt x0 hx0
  · intro p hp
    rw [hp2, e2] at hp
    rw [hn2, e6]
    exact hI.pairDocLt p hp
  · intro d1 hd1 d2 hd2x ha1 ha2 hhid12
    rw [hdocs2] at hd1 hd2x
    obtain ⟨x1, hx1, rfl⟩ := List.mem_map.mp hd1
    obtain ⟨x2, hx2, rfl⟩ := List.mem_map.mp hd2x
    by_cases h1 : x1.id = d.id
    · exfalso
      rw [if_pos h1] at ha1
      simp at ha1
    · by_cases h2 : x2.id = d.id
      · exfalso
        rw [if_pos h2] at ha2
        simp at ha2
      · rw [if_neg h1] at ha1 hhid12 ⊢
        rw [if_neg h2] at ha2 hhid12 ⊢
        rw [hI.single x1 hx1 x2 hx2 ha1 ha2 hhid12]

theorem find?_head_spec {id : Nat} {db : DB} {d : Document}
    (hfind : db.documents.find? (fun x => x.id = id && !x.isArchived) = some d) :
    d ∈ db.documents ∧ d.id = id ∧ d.isArchived = false := by
  refine ⟨List.mem_of_find?_eq_some hfind, ?_, ?_⟩
  · have := List.find?_some hfind
    simp at this
    exact this.1
  · have := List.find?_some hfind
    simp at this
    exact this.2

theorem archiveDocument_ok {id : Nat} {db : DB} {d : Document}
    (hI : Inv db)
    (hfind : db.documents.find? (fun x => x.id = id && !x.isArchived) = some d) :
    ∃ db', archiveDocument id db = (.ok d, db') ∧ Inv db' ∧
      db'.documents = db.documents.map (fun x =>
        if x.id = d.id then { x with isArchived := true, updatedAt := db.clock } else x) ∧
      db'.docTags = db.docTags ∧ db'.nextDocId = db.nextDocId ∧
      db'.nextHid = db.nextHid ∧ db'.nextTagId = db.nextTagId ∧ db'.clock = db.clock + 1 ∧
      (∀ x ∈ db'.documents, x.historyId = d.historyId → x.isArchived = true) := by
  obtain ⟨hmem, hid, harch⟩ := find?_head_spec hfind
  simp only [archiveDocument]
  rw [hfind]
  exact archiveDocumentInstance_ok hI hmem harch

theorem updateDocument_ok {id : Nat} {doc : DocInput} {db db' : DB} {nd d : Document}
    (hI : Inv db)
    (hfind : db.documents.find? (fun x => x.id = id && !x.isArchived) = some d)
    (h : updateDocument id doc db = (.ok nd, db')) :
    Inv db' ∧ nd.historyId = d.historyId ∧ nd.isArchived = false ∧ nd.id = db.nextDocId ∧
    nd.title = setText doc.title ∧ nd.content = setText doc.content ∧
    db'.documents = (db.documents.map (fun x =>
      if x.id = d.id then { x with isArchived := true, updatedAt := db.clock } else x)) ++ [nd] := by
  obtain ⟨hmem, hid, harch⟩ := find?_head_spec hfind
  obtain ⟨dbA, heqA, hInvA, hdocsA, hpA, hnA, hhA, htgA, hcA, hchainA⟩ :=
    archiveDocumentInstance_ok hI hmem harch
  simp only [updateDocument] at h
  rw [hfind] at h
  dsimp only at h
  rw [heqA] at h
  dsimp only at h
  have hhid : ∀ x ∈ ({ doc with historyId := some d.historyId } : DocInput).historyId,
      x < dbA.nextHid ∧ ∀ dd ∈ dbA.documents, dd.historyId = x → dd.isArchived = true := by
    intro x hx
    have hxd : x = d.historyId := by
      simpa using hx.symm
    subst hxd
    refine ⟨?_, hchainA⟩
    rw [hhA]
    exact hI.hidLt d hmem
  obtain ⟨hInv', hndid, hndarch, hndhid, hndtitle, hndcontent, _, _, hdocs', hnext', _, _, _, _, _⟩ :=
    addDocument_ok hInvA hhid h
  refine ⟨hInv', ?_, hndarch, ?_, hndtitle, hndcontent, ?_⟩
  · rw [hndhid]
    simp
  · rw [hndid, hnA]
  · rw [hdocs', hdocsA]

theorem inv_db0 : Inv db0 := by
  refine ⟨⟨?_, ?_, ?_, ?_⟩, ?_, ?_, ?_, ?_, ?_, ?_⟩ <;>
    simp [db0, SingleHead, TagCounts]

theorem applyOp_inv {op : Op} {db : DB} (hI : Inv db) : Inv (applyOp op db) := by
  cases op with
  | create doc =>
    simp only [applyOp, transact]
    cases hrun : addDocument { doc with historyId := none } db with
    | mk r db1 =>
      cases r with
      | error e => exact hI
      | ok nd =>
        obtain ⟨hInv', _⟩ := addDocument_ok hI (by simp) hrun
        exact hInv'
  | update id doc =>
    simp only [applyOp, transact]
    cases hrun : updateDocument id doc db with
    | mk r db1 =>
      cases r with
      | error e => exact hI
      | ok nd =>
        cases hfind : db.documents.find? (fun x => x.id = id && !x.isArchived) with
        | none =>
          exfalso
          simp only [updateDocument] at hrun
          rw [hfind] at hrun
          simp at hrun
        | some d =>
          obtain ⟨hInv', _⟩ := updateDocument_ok hI hfind hrun
          exact hInv'
  | archive id =>
    simp only [applyOp, transact]
    cases hrun : archiveDocument id db with
    | mk r db1 =>
      cases r with
      | error e => exact hI
      | ok nd =>
        cases hfind : db.documents.find? (fun x => x.id = id && !x.isArchived) with
        | none =>
          exfalso
          simp only [archiveDocument] at hrun
          rw [hfind] at hrun
          simp at hrun
        | some d =>
          obtain ⟨db2, heq2, hInv', _⟩ := archiveDocument_ok hI hfind
          rw [heq2] at hrun
          simp only [Prod.mk.injEq] at hrun
          rw [← hrun.2]
          exact hInv'

theorem applyOps_inv {ops : List Op} {db : DB} (hI : Inv db) : Inv (applyOps ops db) := by
  induction ops generalizing db with
  | nil => exact hI
  | cons op rest ih => exact ih (applyOp_inv hI)

theorem reach_inv {db : DB} (h : Reach db) : Inv db := by
  obtain ⟨ops, rfl⟩ := h
  exact applyOps_inv inv_db0

/-! ## Claim theorems -/

/-- C1: for every sequence of create (fresh `historyId`), update and archive
operations, at every reachable state at most one revision of any `historyId`
is non-archived. -/
theorem single_head_invariant {db : DB} (h : Reach db) :
    ∀ d1 ∈ db.documents, ∀ d2 ∈ db.documents,
      d1.isArchived = false → d2.isArchived = false →
      d1.historyId = d2.historyId → d1 = d2 :=
  (reach_inv h).single

theorem single_head_invariant_witness :
    (⟨3, 1, false, "gamma", "farewell", 1, 4⟩ : Document) =
      ⟨3, 1, false, "gamma", "farewell", 1, 4⟩ :=
  single_head_invariant ⟨opsW, rfl⟩ _ (by decide) _ (by decide) (by decide) (by decide) (by decide)

/-- C2: at every reachable state (revision operations only, no administrative
tag overrides), every surviving tag row has `count ≥ 1` and `count` equals the
number of non-archived revisions referencing it. -/
theorem tag_count_invariant {db : DB} (h : Reach db) :
    ∀ t ∈ db.tags, 1 ≤ t.count ∧ t.count = (refCount t.id db : Int) := by
  intro t ht
  obtain ⟨h1, h2⟩ := (reach_inv h).counts t ht
  refine ⟨h1, ?_⟩
  simpa using h2

theorem tag_count_invariant_witness :
    1 ≤ (⟨1, "red", 1, "#00ff00"⟩ : Tag).count ∧
      (⟨1, "red", 1, "#00ff00"⟩ : Tag).count = (refCount 1 dbW : Int) :=
  tag_count_invariant ⟨opsW, rfl⟩ _ (by decide)

theorem increaseOrAddTag_err {tin : TagInput} {db db' : DB} {e : Err}
    (h : increaseOrAddTag tin db = (.error e, db')) : e ≠ .docNotFound := by
  simp only [increaseOrAddTag] at h
  split at h
  · split at h
    · simp at h
    · simp only [Prod.mk.injEq, Except.error.injEq] at h
      rw [← h.1]
      simp
  · split at h
    · simp only [Prod.mk.injEq, Except.error.injEq] at h
      rw [← h.1]
      simp
    · split at h
      · simp at h
      · simp only [Prod.mk.injEq, Except.error.injEq] at h
        rw [← h.1]
        simp

theorem attachTags_err {tins : List TagInput} {db db' : DB} {e : Err}
    (h : attachTags tins db = (.error e, db')) : e ≠ .docNotFound := by
  induction tins generalizing db db' e with
  | nil => simp [attachTags] at h
  | cons tin rest ih =>
    simp only [attachTags] at h
    split at h
    · rename_i e0 db1 heq
      simp only [Prod.mk.injEq, Except.error.injEq] at h
      rw [← h.1]
      exact increaseOrAddTag_err heq
    · rename_i t db1 heq
      split at h
      · rename_i e0 db2 heq2
        simp only [Prod.mk.injEq, Except.error.injEq] at h
        rw [← h.1]
        exact ih heq2
      · simp at h

theorem setTags_err {docId : Nat} {ts : List Tag} {db db' : DB} {e : Err}
    (h : setTags docId ts db = (.error e, db')) : e ≠ .docNotFound := by
  simp only [setTags] at h
  split at h
  · simp at h
  · simp only [Prod.mk.injEq, Except.error.injEq] at h
    rw [← h.1]
    simp

theorem addDocument_err {doc : DocInput} {db db' : DB} {e : Err}
    (h : addDocument doc db = (.error e, db')) : e ≠ .docNotFound := by
  simp only [addDocument] at h
  split at h
  · simp only [Prod.mk.injEq, Except.error.injEq] at h
    rw [← h.1]
    simp
  · split at h
    · simp only [Prod.mk.injEq, Except.error.injEq] at h
      rw [← h.1]
      simp
    · split at h
      · rename_i e0 db2 heq
        simp only [Prod.mk.injEq, Except.error.injEq] at h
        rw [← h.1]
        exact attachTags_err heq
      · rename_i ts db2 heq
        split at h
        · rename_i e0 db3 heq2
          simp only [Prod.mk.injEq, Except.error.injEq] at h
          rw [← h.1]
          exact setTags_err heq2
        · simp at h

theorem decreaseOrRemoveTag_err {x : Nat} {db db' : DB} {e : Err}
    (h : decreaseOrRemoveTag x db = (.error e, db')) : e ≠ .docNotFound := by
  simp only [decreaseOrRemoveTag] at h
  split at h
  · simp only [Prod.mk.injEq, Except.error.injEq] at h
    rw [← h.1]
    simp
  · split at h <;> simp at h

theorem decTags_err {pending : List Nat} {db db' : DB} {e : Err}
    (h : decTags pending db = (.error e, db')) : e ≠ .docNotFound := by
  induction pending generalizing db db' e with
  | nil => simp [decTags] at h
  | cons x rest ih =>
    simp only [decTags] at h
    split at h
    · rename_i e0 db1 heq
      simp only [Prod.mk.injEq, Except.error.injEq] at h
      rw [← h.1]
      exact decreaseOrRemoveTag_err heq
    · rename_i t db1 heq
      exact ih h

theorem archiveDocumentInstance_err {d : Document} {db db' : DB} {e : Err}
    (h : archiveDocumentInstance d db = (.error e, db')) : e ≠ .docNotFound := by
  simp only [archiveDocumentInstance] at h
  split at h
  · rename_i e0 db1 heq
    simp only [Prod.mk.injEq, Except.error.injEq] at h
    rw [← h.1]
    exact decTags_err heq
  · simp at h

/-- C3: `updateDocument` and `archiveDocument` fail with the
`document_not_exist` error exactly when no revision with the given id is
currently non-archived (the id never existed, or its revision was already
archived). -/
theorem update_archive_notFound (id : Nat) (doc : DocInput) (db : DB) :
    ((updateDocument id doc db).1 = .error .docNotFound ↔
      ¬ ∃ d ∈ db.documents, d.id = id ∧ d.isArchived = false) ∧
    ((archiveDocument id db).1 = .error .docNotFound ↔
      ¬ ∃ d ∈ db.documents, d.id = id ∧ d.isArchived = false) := by
  cases hfind : db.documents.find? (fun x => x.id = id && !x.isArchived) with
  | none =>
    have hno : ¬ ∃ d ∈ db.documents, d.id = id ∧ d.isArchived = false := by
      intro ⟨d, hd, hid, harch⟩
      have := List.find?_eq_none.mp hfind d hd
      simp [hid, harch] at this
    constructor
    · constructor
      · intro _; exact hno
      · intro _
        simp only [updateDocument]
        rw [hfind]
    · constructor
      · intro _; exact hno
      · intro _
        simp only [archiveDocument]
        rw [hfind]
  | some d =>
    obtain ⟨hmem, hid, harch⟩ := find?_head_spec hfind
    have hyes : ∃ d ∈ db.documents, d.id = id ∧ d.isArchived = false := ⟨d, hmem, hid, harch⟩
    constructor
    · constructor
      · intro hcontra
        exfalso
        simp only [updateDocument] at hcontra
        rw [hfind] at hcontra
        dsimp only at hcontra
        rcases heqA : archiveDocumentInstance d db with ⟨rA, dbA⟩
        rw [heqA] at hcontra
        cases rA with
        | error e =>
          dsimp only at hcontra
          exact archiveDocumentInstance_err heqA (Except.error.inj hcontra)
        | ok dA =>
          dsimp only at hcontra
          rcases heqB : addDocument { doc with historyId := some dA.historyId } dbA with ⟨rB, dbB⟩
          rw [heqB] at hcontra
          dsimp only at hcontra
          cases rB with
          | error e => exact addDocument_err heqB (Except.error.inj hcontra)
          | ok nd => simp at hcontra
      · intro hcontra
        exact absurd hyes hcontra
    · constructor
      · intro hcontra
        exfalso
        simp only [archiveDocument] at hcontra
        rw [hfind] at hcontra
        dsimp only at hcontra
        rcases heqA : archiveDocumentInstance d db with ⟨rA, dbA⟩
        rw [heqA] at hcontra
        dsimp only at hcontra
        cases rA with
        | error e => exact archiveDocumentInstance_err heqA (Except.error.inj hcontra)
        | ok dA => simp at hcontra
      · intro hcontra
        exact absurd hyes hcontra

theorem update_archive_notFound_witness :
    (updateDocument 1 docC db0).1 = Except.error Err.docNotFound :=
  (update_archive_notFound 1 docC db0).1.mpr (by decide)

theorem mem_sortByUpdated {l : List Document} {d : Document} :
    d ∈ sortByUpdated l ↔ d ∈ l :=
  (List.perm_insertionSort newerFirst l).mem_iff

theorem length_sortByUpdated (l : List Document) :
    (sortByUpdated l).length = l.length :=
  (List.perm_insertionSort newerFirst l).length_eq

theorem sorted_sortByUpdated (l : List Document) :
    List.Sorted newerFirst (sortByUpdated l) :=
  List.sorted_insertionSort newerFirst l

/-- Full characterization of the by-`historyId` search: the error case, what
the returned page contains, its ordering and size, and completeness of the
page when it fits. -/
theorem searchDocumentByHistoryId_spec (historyId c n : Nat) (db : DB) :
    (searchDocumentByHistoryId historyId (c, n) db = .error .docNotFound ↔
      db.documents.filter (fun d => c < d.id && d.historyId = historyId) = [] ∨ n = 0) ∧
    ∀ l, searchDocumentByHistoryId historyId (c, n) db = .ok l →
      (∀ d ∈ l, d ∈ db.documents ∧ c < d.id ∧ d.historyId = historyId) ∧
      l.length ≤ n ∧ List.Sorted newerFirst l ∧
      ((db.documents.filter (fun d => c < d.id && d.historyId = historyId)).length ≤ n →
        ∀ d ∈ db.documents, c < d.id → d.historyId = historyId → d ∈ l) := by
  simp only [searchDocumentByHistoryId]
  constructor
  · constructor
    · intro h
      split at h
      · rename_i hlen
        rw [List.length_eq_zero, List.take_eq_nil_iff] at hlen
        rcases hlen with hn | hs
        · exact Or.inr hn
        · refine Or.inl ?_
          have := length_sortByUpdated (db.documents.filter
            (fun d => c < d.id && d.historyId = historyId))
          rw [hs] at this
          exact List.length_eq_zero.mp this.symm
      · simp at h
    · intro h
      have hnil : (sortByUpdated (db.documents.filter
          (fun d => c < d.id && d.historyId = historyId))).take n = [] := by
        rw [List.take_eq_nil_iff]
        rcases h with hf | hn
        · refine Or.inr ?_
          rw [← List.length_eq_zero, length_sortByUpdated, hf]
          rfl
        · exact Or.inl hn
      rw [if_pos (by rw [hnil]; rfl)]
  · intro l h
    split at h
    · simp at h
    · rename_i hlen
      simp only [Except.ok.injEq] at h
      subst h
      refine ⟨?_, List.length_take_le n _, ?_, ?_⟩
      · intro d hd
        have hmem : d ∈ db.documents.filter (fun x => c < x.id && x.historyId = historyId) :=
          mem_sortByUpdated.mp (List.mem_of_mem_take hd)
        have hcond := (List.mem_filter.mp hmem).2
        simp only [Bool.and_eq_true, decide_eq_true_eq] at hcond
        exact ⟨(List.mem_filter.mp hmem).1, hcond.1, hcond.2⟩
      · exact List.Pairwise.sublist (List.take_sublist n _) (sorted_sortByUpdated _)
      · intro hfit d hd hc hh
        have hall : (sortByUpdated (db.documents.filter
            (fun x => c < x.id && x.historyId = historyId))).take n =
            sortByUpdated (db.documents.filter (fun x => c < x.id && x.historyId = historyId)) := by
          apply List.take_of_length_le
          rw [length_sortByUpdated]
          exact hfit
        rw [hall]
        apply mem_sortByUpdated.mpr
        apply List.mem_filter.mpr
        refine ⟨hd, ?_⟩
        simp [hc, hh]

/-- C8 as stated is false: the `document_not_exist` failure depends on the
cursor (and page size), not only on chain emptiness.  Here the chain of
`historyId = 7` is non-empty (one revision, id 1), yet the search with cursor
1 fails. -/
theorem search_history_cursor_counterexample :
    searchDocument "history" 7 (1, 10)
        ⟨[⟨1, 7, false, "a", "b", 1, 1⟩], [], [], 2, 1, 8, 2⟩ = .error .docNotFound ∧
      ∃ d ∈ (⟨[⟨1, 7, false, "a", "b", 1, 1⟩], [], [], 2, 1, 8, 2⟩ : DB).documents,
        d.historyId = 7 := by
  constructor
  · rfl
  · exact ⟨⟨1, 7, false, "a", "b", 1, 1⟩, by decide, rfl⟩

/-- C8 (amended): `searchDocument "history"` returns the revisions sharing the
`historyId` (archived ones included) with id above the cursor, newest-updated
first and limited to the page size; it fails `NotFound` iff that filtered set
is empty or the page size is zero — not iff the chain is empty. -/
theorem search_history_page (historyId c n : Nat) (db : DB) :
    (searchDocument "history" historyId (c, n) db = .error .docNotFound ↔
      db.documents.filter (fun d => c < d.id && d.historyId = historyId) = [] ∨ n = 0) ∧
    ∀ l, searchDocument "history" historyId (c, n) db = .ok l →
      (∀ d ∈ l, d ∈ db.documents ∧ c < d.id ∧ d.historyId = historyId) ∧
      l.length ≤ n ∧ List.Sorted newerFirst l ∧
      ((db.documents.filter (fun d => c < d.id && d.historyId = historyId)).length ≤ n →
        ∀ d ∈ db.documents, c < d.id → d.historyId = historyId → d ∈ l) :=
  searchDocumentByHistoryId_spec historyId c n db

theorem search_history_page_witness :
    (⟨1, 1, true, "alpha", "hello", 1, 3⟩ : Document) ∈
      [(⟨3, 1, false, "gamma", "farewell", 1, 4⟩ : Document),
       ⟨1, 1, true, "alpha", "hello", 1, 3⟩] :=
  ((search_history_page 1 0 10 dbW).2
      [⟨3, 1, false, "gamma", "farewell", 1, 4⟩, ⟨1, 1, true, "alpha", "hello", 1, 3⟩]
      (by decide)).2.2.2 (by decide) ⟨1, 1, true, "alpha", "hello", 1, 3⟩
    (by decide) (by decide) (by decide)

theorem searchDocumentByHistoryId_err {historyId c n : Nat} {db : DB} {e : Err}
    (h : searchDocumentByHistoryId historyId (c, n) db = .error e) : e = .docNotFound := by
  simp only [searchDocumentByHistoryId] at h
  split at h
  · simpa using h.symm
  · simp at h

/-- C4: a successful `updateDocument` on the head `d` produces a new
non-archived revision with the same `historyId`, and the subsequent
by-`historyId` search (cursor below the old id, page large enough) returns
both the old row, now archived, and the new head. -/
theorem update_chain_continuity {id : Nat} {doc : DocInput} {db db' : DB} {nd d : Document}
    {c n : Nat}
    (hR : Reach db)
    (hfind : db.documents.find? (fun x => x.id = id && !x.isArchived) = some d)
    (h : updateDocument id doc db = (.ok nd, db'))
    (hc : c < d.id)
    (hn : (db'.documents.filter (fun x => c < x.id && x.historyId = d.historyId)).length ≤ n) :
    nd.historyId = d.historyId ∧ nd.isArchived = false ∧
    ∃ l, searchDocument "history" d.historyId (c, n) db' = .ok l ∧
      { d with isArchived := true, updatedAt := db.clock } ∈ l ∧ nd ∈ l := by
  have hI := reach_inv hR
  obtain ⟨hmem, hid, harch⟩ := find?_head_spec hfind
  obtain ⟨hInv', hndhid, hndarch, hndid, hndtitle, hndcontent, hdocs'⟩ :=
    updateDocument_ok hI hfind h
  refine ⟨hndhid, hndarch, ?_⟩
  have hold : { d with isArchived := true, updatedAt := db.clock } ∈ db'.documents := by
    rw [hdocs']
    apply List.mem_append.mpr
    refine Or.inl ?_
    have : ({ d with isArchived := true, updatedAt := db.clock } : Document) =
        (fun x => if x.id = d.id then { x with isArchived := true, updatedAt := db.clock } else x) d := by
      simp
    rw [this]
    exact List.mem_map_of_mem _ hmem
  have hnew : nd ∈ db'.documents := by
    rw [hdocs']
    exact List.mem_append.mpr (Or.inr (List.mem_singleton.mpr rfl))
  have holdfilter : ({ d with isArchived := true, updatedAt := db.clock } : Document) ∈
      db'.documents.filter (fun x => c < x.id && x.historyId = d.historyId) := by
    apply List.mem_filter.mpr
    refine ⟨hold, ?_⟩
    simp [hc]
  have hcnd : c < nd.id := by
    rw [hndid]
    exact lt_trans hc (hI.docIdLt d hmem)
  cases hs : searchDocument "history" d.historyId (c, n) db' with
  | error e =>
    exfalso
    have he : e = .docNotFound := searchDocumentByHistoryId_err hs
    subst he
    rcases ((searchDocumentByHistoryId_spec d.historyId c n db').1.mp hs) with hf | hn0
    · rw [hf] at holdfilter
      simp at holdfilter
    · subst hn0
      have : 0 < (db'.documents.filter (fun x => c < x.id && x.historyId = d.historyId)).length :=
        List.length_pos.mpr (fun hnil => by rw [hnil] at holdfilter; simp at holdfilter)
      omega
  | ok l =>
    obtain ⟨hl1, hl2, hl3, hl4⟩ := (searchDocumentByHistoryId_spec d.historyId c n db').2 l hs
    refine ⟨l, rfl, ?_, ?_⟩
    · exact hl4 hn _ hold (by simp [hc]) rfl
    · exact hl4 hn _ hnew hcnd hndhid

theorem update_chain_continuity_witness :
    (⟨3, 1, false, "gamma", "farewell", 1, 4⟩ : Document).historyId = 1 ∧
    (⟨1, 1, true, "alpha", "hello", 1, 3⟩ : Document) ∈
      [(⟨3, 1, false, "gamma", "farewell", 1, 4⟩ : Document),
       ⟨1, 1, true, "alpha", "hello", 1, 3⟩] ∧
    (⟨3, 1, false, "gamma", "farewell", 1, 4⟩ : Document) ∈
      [(⟨3, 1, false, "gamma", "farewell", 1, 4⟩ : Document),
       ⟨1, 1, true, "alpha", "hello", 1, 3⟩] := by
  obtain ⟨h1, h2, l, hs, hold, hnew⟩ := @update_chain_continuity 1 docC dbU dbU2
    ⟨3, 1, false, "gamma", "farewell", 1, 4⟩ ⟨1, 1, false, "alpha", "hello", 1, 1⟩ 0 10
    ⟨[.create docA, .create docB], rfl⟩ (by decide) (by decide) (by decide) (by decide)
  have hlit : searchDocument "history" 1 (0, 10) dbU2 =
      .ok [⟨3, 1, false, "gamma", "farewell", 1, 4⟩, ⟨1, 1, true, "alpha", "hello", 1, 3⟩] := by
    decide
  have hl : l = [⟨3, 1, false, "gamma", "farewell", 1, 4⟩,
      ⟨1, 1, true, "alpha", "hello", 1, 3⟩] :=
    (Except.ok.inj (hlit.symm.trans hs)).symm
  subst hl
  exact ⟨h1, hold, hnew⟩

/-- C5: the transactional create either applies everything — the revision row,
its author, and one attachment per requested tag — or, when any step fails,
leaves the store exactly as it was. -/
theorem create_atomic (doc : DocInput) (db : DB) (hR : Reach db) :
    (∀ e db', createDocument doc db = (.error e, db') → db' = db) ∧
    (∀ nd db', createDocument doc db = (.ok nd, db') →
      nd ∈ db'.documents ∧ nd.authorId = doc.authorId ∧ nd.isArchived = false ∧
      nd.title = setText doc.title ∧ nd.content = setText doc.content ∧
      ∀ tin ∈ doc.tags, ∃ u ∈ db'.tags, u.title = setText tin.title ∧
        (nd.id, u.id) ∈ db'.docTags) := by
  constructor
  · intro e db' h
    simp only [createDocument, transact] at h
    rcases hrun : addDocument { doc with historyId := none } db with ⟨r, db1⟩
    rw [hrun] at h
    cases r with
    | error e0 =>
      dsimp only at h
      simp only [Prod.mk.injEq] at h
      exact h.2.symm
    | ok nd => simp at h
  · intro nd db' h
    simp only [createDocument, transact] at h
    rcases hrun : addDocument { doc with historyId := none } db with ⟨r, db1⟩
    rw [hrun] at h
    cases r with
    | error e0 => simp at h
    | ok nd0 =>
      dsimp only at h
      simp only [Prod.mk.injEq, Except.ok.injEq] at h
      obtain ⟨h1, h2⟩ := h
      subst h1
      subst h2
      obtain ⟨_, _, hndarch, _, hndtitle, hndcontent, hndauthor, _, hdocs, _, _, _, _, _, htags⟩ :=
        addDocument_ok (reach_inv hR) (by simp) hrun
      refine ⟨?_, ?_, hndarch, hndtitle, hndcontent, ?_⟩
      · rw [hdocs]
        exact List.mem_append.mpr (Or.inr (List.mem_singleton.mpr rfl))
      · simpa using hndauthor
      · intro tin htin
        exact htags tin (by simpa using htin)

theorem create_atomic_witness :
    (createDocument docBad db0).2 = db0 ∧
    (⟨1, 1, false, "alpha", "hello", 1, 1⟩ : Document) ∈
      (createDocument docA db0).2.documents := by
  constructor
  · exact (create_atomic docBad db0 ⟨[], rfl⟩).1 .colorInvalid _ (by decide)
  · exact ((create_atomic docA db0 ⟨[], rfl⟩).2 ⟨1, 1, false, "alpha", "hello", 1, 1⟩ _
      (by decide)).1

theorem setText_ne_empty {v : Option String} (h : notBlank v = true) : setText v ≠ "" := by
  cases v with
  | none => simp [notBlank] at h
  | some s =>
    rw [setText, if_pos h]
    simp only [Option.getD_some]
    intro hcon
    subst hcon
    simp [notBlank] at h

/-- C6 (amended): when the supplied color passes the 6-hex-digit validation,
attaching looks the tag up by title; if found, the result is the found row
with its count incremented by exactly one and its color overwritten (the row
updated in place, nothing else touched); if not found and the title is
non-blank, a fresh row with count 1 and the given color is appended.  (With
an invalid color the attach instead fails validation — see the
counterexample.) -/
theorem increaseOrAddTag_valid (tin : TagInput) (db : DB)
    (hco : validColor (setText tin.color) = true) :
    (∀ t0, db.tags.find? (fun t => t.title = setText tin.title) = some t0 →
      (increaseOrAddTag tin db).1 = .ok ⟨t0.id, t0.title, t0.count + 1, setText tin.color⟩ ∧
      (⟨t0.id, t0.title, t0.count + 1, setText tin.color⟩ : Tag) ∈ (increaseOrAddTag tin db).2.tags ∧
      (increaseOrAddTag tin db).2.documents = db.documents ∧
      (increaseOrAddTag tin db).2.docTags = db.docTags ∧
      (increaseOrAddTag tin db).2.tags.length = db.tags.length ∧
      (∀ u ∈ db.tags, u.id ≠ t0.id → u ∈ (increaseOrAddTag tin db).2.tags)) ∧
    (db.tags.find? (fun t => t.title = setText tin.title) = none →
      notBlank tin.title = true →
      (increaseOrAddTag tin db).1 = .ok ⟨db.nextTagId, setText tin.title, 1, setText tin.color⟩ ∧
      (increaseOrAddTag tin db).2.tags =
        db.tags ++ [⟨db.nextTagId, setText tin.title, 1, setText tin.color⟩]) := by
  constructor
  · intro t0 hfind
    have ht0mem : t0 ∈ db.tags := List.mem_of_find?_eq_some hfind
    refine ⟨?_, ?_, ?_, ?_, ?_, ?_⟩
    · simp [increaseOrAddTag, hfind, hco]
    · simp only [increaseOrAddTag, hfind, hco, if_true]
      have hm := List.mem_map_of_mem (fun t => if t.id = t0.id then
          ({ t0 with count := t0.count + 1, color := setText tin.color } : Tag) else t) ht0mem
      simpa using hm
    · simp [increaseOrAddTag, hfind, hco]
    · simp [increaseOrAddTag, hfind, hco]
    · simp [increaseOrAddTag, hfind, hco]
    · intro u hu hune
      simp only [increaseOrAddTag, hfind, hco, if_true]
      have hm := List.mem_map_of_mem (fun t => if t.id = t0.id then
          ({ t0 with count := t0.count + 1, color := setText tin.color } : Tag) else t) hu
      simpa [hune] using hm
  · intro hfind hnb
    have hne := setText_ne_empty hnb
    simp only [increaseOrAddTag, hfind, hco, if_true, if_neg hne]
    constructor <;> trivial

/-- C6 as stated is false: with a color failing validation, a found tag is not
incremented — the attach fails with the color validation error instead of
returning the updated tag. -/
theorem increaseOrAddTag_invalid_color_counterexample :
    increaseOrAddTag ⟨some "shiny", some "red"⟩
        ⟨[], [⟨1, "shiny", 1, "#a1b2c3"⟩], [], 1, 2, 1, 1⟩ =
      (.error .colorInvalid, ⟨[], [⟨1, "shiny", 1, "#a1b2c3"⟩], [], 1, 2, 1, 1⟩) ∧
    (⟨[], [⟨1, "shiny", 1, "#a1b2c3"⟩], [], 1, 2, 1, 1⟩ : DB).tags.find?
        (fun t => t.title = setText (some "shiny")) = some ⟨1, "shiny", 1, "#a1b2c3"⟩ := by
  decide

theorem increaseOrAddTag_valid_witness :
    (increaseOrAddTag ⟨some "shiny", some "#ff0000"⟩
        ⟨[], [⟨1, "shiny", 1, "#a1b2c3"⟩], [], 1, 2, 1, 1⟩).1 =
      .ok ⟨1, "shiny", 2, "#ff0000"⟩ :=
  ((increaseOrAddTag_valid ⟨some "shiny", some "#ff0000"⟩
      ⟨[], [⟨1, "shiny", 1, "#a1b2c3"⟩], [], 1, 2, 1, 1⟩ (by decide)).1
    ⟨1, "shiny", 1, "#a1b2c3"⟩ (by decide)).1

/-- C7: detaching fails `tag_not_exist` when no tag has the id (store
untouched); at `count = 1` the row is deleted (no row with the id remains,
all other rows survive); otherwise the row's count drops by exactly 1 and
everything else survives. -/
theorem decreaseOrRemoveTag_spec (i : Nat) (db : DB) :
    ((∀ t ∈ db.tags, t.id ≠ i) → decreaseOrRemoveTag i db = (.error .tagNotFound, db)) ∧
    (∀ t0, db.tags.find? (fun t => t.id = i) = some t0 →
      (t0.count = 1 →
        (decreaseOrRemoveTag i db).1 = .ok t0 ∧
        (∀ u ∈ (decreaseOrRemoveTag i db).2.tags, u.id ≠ i) ∧
        (∀ u ∈ db.tags, u.id ≠ i → u ∈ (decreaseOrRemoveTag i db).2.tags) ∧
        (decreaseOrRemoveTag i db).2.documents = db.documents ∧
        (decreaseOrRemoveTag i db).2.docTags = db.docTags) ∧
      (t0.count ≠ 1 →
        (decreaseOrRemoveTag i db).1 = .ok ⟨t0.id, t0.title, t0.count - 1, t0.color⟩ ∧
        (⟨t0.id, t0.title, t0.count - 1, t0.color⟩ : Tag) ∈ (decreaseOrRemoveTag i db).2.tags ∧
        (∀ u ∈ db.tags, u.id ≠ i → u ∈ (decreaseOrRemoveTag i db).2.tags) ∧
        (decreaseOrRemoveTag i db).2.documents = db.documents ∧
        (decreaseOrRemoveTag i db).2.docTags = db.docTags)) := by
  constructor
  · intro hno
    have hfind : db.tags.find? (fun t => t.id = i) = none := by
      apply List.find?_eq_none.mpr
      intro t ht
      simpa using hno t ht
    simp only [decreaseOrRemoveTag, hfind]
  · intro t0 hfind
    have ht0mem : t0 ∈ db.tags := List.mem_of_find?_eq_some hfind
    constructor
    · intro hone
      refine ⟨?_, ?_, ?_, ?_, ?_⟩
      · simp [decreaseOrRemoveTag, hfind, hone]
      · intro u hu
        simp only [decreaseOrRemoveTag, hfind, hone, if_true] at hu
        have := (List.mem_filter.mp hu).2
        simpa using this
      · intro u hu hune
        simp only [decreaseOrRemoveTag, hfind, hone, if_true]
        exact List.mem_filter.mpr ⟨hu, by simpa using hune⟩
      · simp [decreaseOrRemoveTag, hfind, hone]
      · simp [decreaseOrRemoveTag, hfind, hone]
    · intro hone
      have ht0i : t0.id = i := by
        have := List.find?_some hfind
        simpa using this
      refine ⟨?_, ?_, ?_, ?_, ?_⟩
      · simp [decreaseOrRemoveTag, hfind, hone]
      · simp only [decreaseOrRemoveTag, hfind, if_neg hone]
        have hm := List.mem_map_of_mem (fun t => if t.id = i then
            ({ t0 with count := t0.count - 1 } : Tag) else t) ht0mem
        simpa [ht0i] using hm
      · intro u hu hune
        simp only [decreaseOrRemoveTag, hfind, if_neg hone]
        have hm := List.mem_map_of_mem (fun t => if t.id = i then
            ({ t0 with count := t0.count - 1 } : Tag) else t) hu
        simpa [hune] using hm
      · simp [decreaseOrRemoveTag, hfind, hone]
      · simp [decreaseOrRemoveTag, hfind, hone]

theorem decreaseOrRemoveTag_spec_witness :
    (decreaseOrRemoveTag 1 ⟨[], [⟨1, "shiny", 2, "#a1b2c3"⟩], [], 1, 2, 1, 1⟩).1 =
      .ok ⟨1, "shiny", 1, "#a1b2c3"⟩ ∧
    decreaseOrRemoveTag 5 ⟨[], [⟨1, "shiny", 2, "#a1b2c3"⟩], [], 1, 2, 1, 1⟩ =
      (.error .tagNotFound, ⟨[], [⟨1, "shiny", 2, "#a1b2c3"⟩], [], 1, 2, 1, 1⟩) := by
  constructor
  · exact (((decreaseOrRemoveTag_spec 1 ⟨[], [⟨1, "shiny", 2, "#a1b2c3"⟩], [], 1, 2, 1, 1⟩).2
      ⟨1, "shiny", 2, "#a1b2c3"⟩ (by decide)).2 (by decide)).1
  · exact (decreaseOrRemoveTag_spec 5 ⟨[], [⟨1, "shiny", 2, "#a1b2c3"⟩], [], 1, 2, 1, 1⟩).1
      (by decide)

/-- C9: the title/content setter turns every blank, whitespace-only or
non-string value into the empty string and keeps non-blank strings verbatim;
the setter itself rejects nothing — rejection happens only through the
persistence-layer `notEmpty` validation, which fails document creation exactly
on the normalized-empty values. -/
theorem blank_normalization :
    (∀ v, notBlank v = false → setText v = "") ∧
    (∀ s : String, notBlank (some s) = true → setText (some s) = s) ∧
    (∀ doc db, setText doc.title = "" → addDocument doc db = (.error .titleRequired, db)) ∧
    (∀ doc db, setText doc.title ≠ "" → setText doc.content = "" →
      addDocument doc db = (.error .contentRequired, db)) ∧
    (∀ doc db nd db', addDocument doc db = (.ok nd, db') →
      nd.title = setText doc.title ∧ nd.content = setText doc.content) := by
  refine ⟨?_, ?_, ?_, ?_, ?_⟩
  · intro v h
    rw [setText, if_neg (by simp [h])]
  · intro s h
    rw [setText, if_pos h]
    rfl
  · intro doc db h
    simp only [addDocument, if_pos h]
  · intro doc db h1 h2
    simp only [addDocument, if_neg h1, if_pos h2]
  · intro doc db nd db' h
    simp only [addDocument] at h
    split at h
    · simp at h
    · split at h
      · simp at h
      · split at h
        · simp at h
        · split at h
          · simp at h
          · simp only [Prod.mk.injEq, Except.ok.injEq] at h
            rw [← h.1]
            exact ⟨rfl, rfl⟩

theorem blank_normalization_witness :
    setText (some "  ") = "" ∧
    addDocument ⟨none, some "  ", some "x", 1, []⟩ db0 = (.error .titleRequired, db0) := by
  constructor
  · exact blank_normalization.1 (some "  ") (by decide)
  · exact blank_normalization.2.2.1 ⟨none, some "  ", some "x", 1, []⟩ db0 (by decide)

theorem decreaseOrRemoveTag_frame {x : Nat} {db db' : DB} {r : Except Err Tag}
    (h : decreaseOrRemoveTag x db = (r, db')) :
    db'.documents = db.documents ∧ db'.docTags = db.docTags ∧
    (∀ u ∈ db.tags, u.id ≠ x → u ∈ db'.tags) := by
  simp only [decreaseOrRemoveTag] at h
  split at h
  · simp only [Prod.mk.injEq] at h
    rw [← h.2]
    exact ⟨rfl, rfl, fun u hu _ => hu⟩
  · rename_i t0 hfind
    split at h
    · simp only [Prod.mk.injEq] at h
      rw [← h.2]
      refine ⟨rfl, rfl, ?_⟩
      intro u hu hune
      exact List.mem_filter.mpr ⟨hu, by simpa using hune⟩
    · simp only [Prod.mk.injEq] at h
      rw [← h.2]
      refine ⟨rfl, rfl, ?_⟩
      intro u hu hune
      have hm := List.mem_map_of_mem (fun t => if t.id = x then
          ({ t0 with count := t0.count - 1 } : Tag) else t) hu
      simpa [hune] using hm

theorem decTags_frame {pending : List Nat} {db db' : DB} {r : Except Err Unit}
    (h : decTags pending db = (r, db')) :
    db'.documents = db.documents ∧ db'.docTags = db.docTags ∧
    (∀ u ∈ db.tags, u.id ∉ pending → u ∈ db'.tags) := by
  induction pending generalizing db r db' with
  | nil =>
    simp only [decTags, Prod.mk.injEq] at h
    rw [← h.2]
    exact ⟨rfl, rfl, fun u hu _ => hu⟩
  | cons x rest ih =>
    simp only [decTags] at h
    split at h
    · rename_i e db1 heq
      simp only [Prod.mk.injEq] at h
      rw [← h.2]
      obtain ⟨f1, f2, f3⟩ := decreaseOrRemoveTag_frame heq
      exact ⟨f1, f2, fun u hu hun =>
        f3 u hu (fun hc => hun (by rw [hc]; exact List.mem_cons_self x rest))⟩
    · rename_i t db1 heq
      obtain ⟨f1, f2, f3⟩ := decreaseOrRemoveTag_frame heq
      obtain ⟨g1, g2, g3⟩ := ih h
      refine ⟨g1.trans f1, g2.trans f2, ?_⟩
      intro u hu hun
      refine g3 u ?_ (fun hc => hun (List.mem_cons_of_mem x hc))
      exact f3 u hu (fun hc => hun (by rw [hc]; exact List.mem_cons_self x rest))

/-- C10 as stated is false: archiving a revision also refreshes the row's
`updatedAt` timestamp, a field outside `isArchived` and the tag counts. -/
theorem archive_updatedAt_counterexample :
    (archiveDocumentInstance ⟨1, 1, false, "a", "b", 1, 5⟩
        ⟨[⟨1, 1, false, "a", "b", 1, 5⟩], [], [], 2, 1, 2, 9⟩).2.documents =
      [⟨1, 1, true, "a", "b", 1, 9⟩] ∧
    (⟨1, 1, true, "a", "b", 1, 9⟩ : Document).updatedAt ≠
      (⟨1, 1, false, "a", "b", 1, 5⟩ : Document).updatedAt := by
  decide

/-- C10 (amended): archiving a revision changes only its `isArchived` flag,
its `updatedAt` timestamp and the counts of its tags (deleting a tag row whose
count reaches zero): title, content, `historyId`, author and the
document-to-tag association rows are untouched, other documents are untouched,
tags not referenced by the archived revision survive unchanged, and the
archived revision is still returned by the by-tag search for any of its
surviving tags. -/
theorem archive_frame {d : Document} {db db' : DB} {r : Except Err Document}
    (htag : (db.tags.map Tag.id).Nodup)
    (h : archiveDocumentInstance d db = (r, db')) :
    db'.docTags = db.docTags ∧
    (∀ x ∈ db.documents, x.id ≠ d.id → x ∈ db'.documents) ∧
    (∀ x ∈ db.documents, x.id = d.id →
      { x with isArchived := true, updatedAt := db.clock } ∈ db'.documents) ∧
    (∀ x ∈ db'.documents, x ∈ db.documents ∨
      ∃ y ∈ db.documents, y.id = d.id ∧
        x = { y with isArchived := true, updatedAt := db.clock }) ∧
    (∀ u ∈ db.tags, (d.id, u.id) ∉ db.docTags → u ∈ db'.tags) ∧
    (∀ t ∈ db'.tags, (d.id, t.id) ∈ db'.docTags → 0 < d.id → d ∈ db.documents →
      ∃ l, searchDocumentByTagId t.id (0, db'.documents.length) db' = .ok l ∧
        ∃ x ∈ l, x.id = d.id ∧ x.isArchived = true) := by
  simp only [archiveDocumentInstance] at h
  generalize hdb1 : ({ documents := db.documents.map (fun x =>
      if x.id = d.id then { x with isArchived := true, updatedAt := db.clock } else x),
                       tags := db.tags,
                       docTags := db.docTags,
                       nextDocId := db.nextDocId,
                       nextTagId := db.nextTagId,
                       nextHid := db.nextHid,
                       clock := db.clock + 1 } : DB) = db1 at h
  have e1 : db1.tags = db.tags := by rw [← hdb1]
  have e2 : db1.docTags = db.docTags := by rw [← hdb1]
  have e4 : db1.documents = db.documents.map (fun x =>
      if x.id = d.id then { x with isArchived := true, updatedAt := db.clock } else x) := by
    rw [← hdb1]
  have main : db'.documents = db1.documents ∧ db'.docTags = db1.docTags ∧
      (∀ u ∈ db1.tags, u.id ∉ (getTags d.id db1).map Tag.id → u ∈ db'.tags) := by
    split at h
    · rename_i e db2 heq
      simp only [Prod.mk.injEq] at h
      rw [← h.2]
      exact decTags_frame heq
    · rename_i u0 db2 heq
      simp only [Prod.mk.injEq] at h
      rw [← h.2]
      exact decTags_frame heq
  obtain ⟨m1, m2, m3⟩ := main
  have hdocs' : db'.documents = db.documents.map (fun x =>
      if x.id = d.id then { x with isArchived := true, updatedAt := db.clock } else x) := by
    rw [m1, e4]
  have hpairs' : db'.docTags = db.docTags := by rw [m2, e2]
  refine ⟨hpairs', ?_, ?_, ?_, ?_, ?_⟩
  · intro x hx hxne
    rw [hdocs']
    have hm := List.mem_map_of_mem (fun x => if x.id = d.id then
        ({ x with isArchived := true, updatedAt := db.clock } : Document) else x) hx
    simpa [hxne] using hm
  · intro x hx hxeq
    rw [hdocs']
    have hm := List.mem_map_of_mem (fun x => if x.id = d.id then
        ({ x with isArchived := true, updatedAt := db.clock } : Document) else x) hx
    simpa [hxeq] using hm
  · intro x hx
    rw [hdocs'] at hx
    obtain ⟨y, hy, rfl⟩ := List.mem_map.mp hx
    by_cases hyd : y.id = d.id
    · refine Or.inr ⟨y, hy, hyd, ?_⟩
      rw [if_pos hyd]
    · rw [if_neg hyd]
      exact Or.inl hy
  · intro u hu hup
    rw [e1] at m3
    apply m3 u hu
    intro hc
    rw [getTags] at hc
    obtain ⟨v, hv, hvid⟩ := List.mem_map.mp hc
    have hvmem := List.mem_of_mem_filter hv
    rw [e1] at hvmem
    have hpred := (List.mem_filter.mp hv).2
    rw [e2] at hpred
    have hveq : v = u := List.inj_on_of_nodup_map htag hvmem hu hvid
    rw [hveq] at hpred
    exact hup (by simpa using hpred)
  · intro t ht hpair hdpos hdmem
    have hfd : ({ d with isArchived := true, updatedAt := db.clock } : Document) ∈
        db'.documents := by
      rw [hdocs']
      have hm := List.mem_map_of_mem (fun x => if x.id = d.id then
          ({ x with isArchived := true, updatedAt := db.clock } : Document) else x) hdmem
      simpa using hm
    have hfind : (db'.tags.find? (fun u => u.id = t.id)).isSome = true := by
      rw [List.find?_isSome]
      exact ⟨t, ht, by simp⟩
    have hfilter : ({ d with isArchived := true, updatedAt := db.clock } : Document) ∈
        db'.documents.filter (fun x => 0 < x.id && db'.docTags.contains (x.id, t.id)
          && (db'.tags.find? (fun u => u.id = t.id)).isSome) := by
      apply List.mem_filter.mpr
      refine ⟨hfd, ?_⟩
      simp only [Bool.and_eq_true, decide_eq_true_eq]
      refine ⟨⟨by simpa using hdpos, ?_⟩, hfind⟩
      simpa using hpair
    simp only [searchDocumentByTagId]
    have hlen : (db'.documents.filter (fun x => 0 < x.id && db'.docTags.contains (x.id, t.id)
        && (db'.tags.find? (fun u => u.id = t.id)).isSome)).length ≤ db'.documents.length :=
      List.length_filter_le _ _
    have htake : (sortByUpdated (db'.documents.filter
        (fun x => 0 < x.id && db'.docTags.contains (x.id, t.id)
          && (db'.tags.find? (fun u => u.id = t.id)).isSome))).take db'.documents.length =
        sortByUpdated (db'.documents.filter
        (fun x => 0 < x.id && db'.docTags.contains (x.id, t.id)
          && (db'.tags.find? (fun u => u.id = t.id)).isSome)) := by
      apply List.take_of_length_le
      rw [length_sortByUpdated]
      exact hlen
    rw [htake]
    have hmemsort : ({ d with isArchived := true, updatedAt := db.clock } : Document) ∈
        sortByUpdated (db'.documents.filter
        (fun x => 0 < x.id && db'.docTags.contains (x.id, t.id)
          && (db'.tags.find? (fun u => u.id = t.id)).isSome)) :=
      mem_sortByUpdated.mpr hfilter
    rw [if_neg (by
      intro hc
      rw [List.length_eq_zero] at hc
      rw [hc] at hmemsort
      simp at hmemsort)]
    exact ⟨_, rfl, _, hmemsort, rfl, rfl⟩

theorem archive_frame_witness :
    dbA1.docTags = dbU.docTags ∧
    (⟨1, 1, true, "alpha", "hello", 1, 3⟩ : Document) ∈ dbA1.documents := by
  have h : archiveDocumentInstance ⟨1, 1, false, "alpha", "hello", 1, 1⟩ dbU =
      (.ok ⟨1, 1, false, "alpha", "hello", 1, 1⟩, dbA1) := by decide
  obtain ⟨h1, h2, h3, _⟩ := archive_frame (by decide) h
  refine ⟨h1, ?_⟩
  exact h3 ⟨1, 1, false, "alpha", "hello", 1, 1⟩ (by decide) rfl

end Kokoto
